import Mathlib

/-!
Verification of the startup-message ETL core of `hoh_local_analyzer.py`
(class `HoHLocalAnalyzer`): the record classifier `classify_startup_messages`
and the entity builder `build_master_tables`.

Records are JSON values.  We embed JSON values as `JValue` and model the
Python dynamics the two methods actually use: `dict.get` with defaults,
`in` tests, truthiness, `str.endswith` (suffix test), `str.replace`
(replacing every occurrence of the pattern), set membership, and `for`
iteration.  Attribute/type errors raised by these operations on ill-typed
values are modelled with `Except`; the builder additionally carries the
partially mutated model state at the point of a raise, since the Python
method mutates `self` field by field.
-/

/-- A JSON value: the type of startup-message records and of all their
field values.  Numbers are embedded as integers (the payloads the two
methods inspect are identifiers, levels and counts). -/
inductive JValue where
  | null
  | bool (b : Bool)
  | num (n : Int)
  | str (s : String)
  | arr (elems : List JValue)
  | obj (fields : List (String × JValue))
deriving Repr

/-- Association-list lookup on a JSON object's field list: Python dict
lookup (keys are unique in a dict; first match). -/
def jlookup : List (String × JValue) → String → Option JValue
  | [], _ => none
  | (k, v) :: rest, key => if k = key then some v else jlookup rest key

/-- `v.get(key)` result as a total function when `v` is known to be an
object: the stored value, or `null` when the key is absent (Python's
`dict.get` default); `null` on non-objects. -/
def jget (v : JValue) (key : String) : Option JValue :=
  match v with
  | .obj fields => jlookup fields key
  | _ => none

/-- `v.get(key, d)` as a total function on objects. -/
def jgetD (v : JValue) (key : String) (d : JValue) : JValue :=
  (jget v key).getD d

/-- `v.get(key)` (default `None`) as a total function on objects. -/
def jgetN (v : JValue) (key : String) : JValue :=
  jgetD v key .null

/-- Python truthiness of a JSON value: `None`, `False`, `0`, `""`, `[]`
and `{}` are falsy, everything else truthy. -/
def pyTruthy : JValue → Bool
  | .null => false
  | .bool b => b
  | .num n => n != 0
  | .str s => s != ""
  | .arr l => !l.isEmpty
  | .obj f => !f.isEmpty

/-- Python `s.endswith(suffix)`: suffix test on the character sequence. -/
def pyEndsWith (s sfx : String) : Bool :=
  sfx.data.isSuffixOf s.data

/-- Python `==` between values as used for set membership of hashable
(scalar) values.  It is only ever applied with a scalar left operand
(the builder's membership guards reject lists/dicts before comparing),
so the structural `arr`/`obj` cases never arise and are mapped to
`false`.  `True == 1` and `False == 0` hold in Python. -/
def jeqScalar : JValue → JValue → Bool
  | .null, .null => true
  | .bool a, .bool b => a == b
  | .bool a, .num n => (if a then (1 : Int) else 0) == n
  | .num n, .bool a => n == (if a then (1 : Int) else 0)
  | .num a, .num b => a == b
  | .str a, .str b => a == b
  | _, _ => false

/-- `msg.get(key, d)` with Python error semantics: `AttributeError` when
the receiver is not a dict.  A present key returns the stored value even
when that value is `null` — the default only covers an absent key. -/
def dictGet (v : JValue) (key : String) (d : JValue) : Except String JValue :=
  match v with
  | .obj fields => .ok ((jlookup fields key).getD d)
  | _ => .error "AttributeError: object has no attribute get"

/-- `msg.get(key)` (default `None`) with Python error semantics. -/
def dictGetN (v : JValue) (key : String) : Except String JValue :=
  dictGet v key .null

/-- `msg[key]` with Python error semantics: `KeyError` on an absent key,
`TypeError` on a non-dict receiver. -/
def dictItem (v : JValue) (key : String) : Except String JValue :=
  match v with
  | .obj fields =>
      match jlookup fields key with
      | some w => .ok w
      | none => .error "KeyError"
  | _ => .error "TypeError: value is not subscriptable by a string"

/-- Python `str.replace` on character lists: replace every occurrence of
`pat` left to right, non-overlapping.  The fuel argument (instantiated
with the input length) makes the recursion structural so that terms
reduce definitionally; it never runs out on a non-empty pattern. -/
def replaceAux (pat rep : List Char) : List Char → Nat → List Char
  | l, 0 => l
  | [], _ => []
  | c :: cs, fuel + 1 =>
      if pat.isPrefixOf (c :: cs) then
        rep ++ replaceAux pat rep (List.drop pat.length (c :: cs)) fuel
      else
        c :: replaceAux pat rep cs fuel

/-- Python `s.replace(pat, rep)` for a non-empty pattern. -/
def pyReplace (s pat rep : String) : String :=
  ⟨replaceAux pat.data rep.data s.data s.data.length⟩

/-- Substring occurrence test on character lists (Python `sub in s`). -/
def charsContain (pat : List Char) : List Char → Bool
  | [] => pat.isEmpty
  | c :: cs => pat.isPrefixOf (c :: cs) || charsContain pat cs

/-- `key in v` with Python error semantics: key test on dicts, substring
test on strings, element test on lists, `TypeError` otherwise. -/
def pyContains (v : JValue) (key : String) : Except String Bool :=
  match v with
  | .obj fields => .ok (jlookup fields key).isSome
  | .str s => .ok (charsContain key.data s.data)
  | .arr l => .ok (l.any (jeqScalar (.str key)))
  | _ => .error "TypeError: argument is not iterable"

/-- `s.endswith(suffix)` with Python error semantics: `AttributeError`
when the receiver is not a string (e.g. a record whose discriminator
field holds `null`). -/
def strEndsWith (v : JValue) (sfx : String) : Except String Bool :=
  match v with
  | .str s => .ok (pyEndsWith s sfx)
  | _ => .error "AttributeError: object has no attribute endswith"

/-- `s.replace(pat, rep)` with Python error semantics (`AttributeError`
on a non-string receiver). -/
def strReplaceS (v : JValue) (pat rep : String) : Except String String :=
  match v with
  | .str s => .ok (pyReplace s pat rep)
  | _ => .error "AttributeError: object has no attribute replace"

/-- `for x in v`: the list of values Python iteration yields — list
elements, the one-character strings of a string, a dict's keys; a
`TypeError` otherwise. -/
def toIter (v : JValue) : Except String (List JValue) :=
  match v with
  | .arr l => .ok l
  | .str s => .ok (s.data.map (fun c => .str (String.singleton c)))
  | .obj fields => .ok (fields.map (fun kv => .str kv.1))
  | _ => .error "TypeError: value is not iterable"

/-- Building a Python `set` from a list of values: raises `TypeError`
when an element is unhashable (a list or a dict).  Duplicates are kept;
membership through `jeqScalar` is unaffected. -/
def mkSet (xs : List JValue) : Except String (List JValue) :=
  if xs.all (fun x => match x with | .arr _ => false | .obj _ => false | _ => true)
  then .ok xs
  else .error "TypeError: unhashable type"

/-- `x in hero_set` with Python error semantics: an unhashable probe
raises `TypeError`; otherwise equality search with `==`. -/
def jmemChk (x : JValue) (set : List JValue) : Except String Bool :=
  match x with
  | .arr _ => .error "TypeError: unhashable type"
  | .obj _ => .error "TypeError: unhashable type"
  | _ => .ok (set.any (jeqScalar x))

/-- Total membership used on the specification side: `x` is among the
stored owned-hero identifiers (Python `in` over the hero set, which the
builder only reaches with hashable values). -/
def jmemB (x : JValue) (set : List JValue) : Bool :=
  set.any (jeqScalar x)

/-- Stripping the `hero.` namespace: Python
`hid.replace("hero.", "")` on a string. -/
def stripHeroS (s : String) : String :=
  pyReplace s "hero." ""

example : pyEndsWith "x.AllianceCityDTO" "CityDTO" = true := by decide
example : pyEndsWith "x.PlayerDTO" "HeroPush" = false := by decide
example : stripHeroS "hero.boudica" = "boudica" := by rfl
example : jgetN (.obj [("a", .num 3)]) "b" = .null := by rfl

/-! ## The classified buckets (`classify_startup_messages` raw storages) -/

/-- The raw storages `classify_startup_messages` fills:
`raw_playerdto`, `raw_heropush`, `raw_equipment_lists`,
`raw_relic_lists`, `raw_cities`, `raw_alliance_members`,
`raw_alliance_cities`.  Singleton buckets hold the last record stored;
list buckets accumulate in stream order. -/
structure Buckets where
  raw_playerdto : Option JValue
  raw_heropush : Option JValue
  raw_equipment_lists : List JValue
  raw_relic_lists : List JValue
  raw_cities : List JValue
  raw_alliance_members : Option JValue
  raw_alliance_cities : List JValue

/-- The empty buckets the method starts from (it resets all raw storages
before scanning the stream). -/
def Buckets.empty : Buckets :=
  ⟨none, none, [], [], [], none, []⟩

/-- One step of the classifier loop body: the ordered suffix dispatch of
`classify_startup_messages` over one message.  The tests run in source
order (`PlayerDTO`, `HeroPush`, `AllEquipmentUnitDataDTO`,
`RelicUnitDataDTO`, `CityDTO`, `AllianceMembersResponse`,
`AllianceCityDTO`); the first match stores the record and `continue`s. -/
def classifyMsg (b : Buckets) (msg : JValue) : Except String Buckets := do
  let dto_type ← dictGet msg "@type" (.str "")
  if ← strEndsWith dto_type "PlayerDTO" then
    return { b with raw_playerdto := some msg }
  if ← strEndsWith dto_type "HeroPush" then
    return { b with raw_heropush := some msg }
  if ← strEndsWith dto_type "AllEquipmentUnitDataDTO" then
    if ← pyContains msg "allEquipment" then
      let v ← dictItem msg "allEquipment"
      return { b with raw_equipment_lists := b.raw_equipment_lists ++ [v] }
    return b
  if ← strEndsWith dto_type "RelicUnitDataDTO" then
    return { b with raw_relic_lists := b.raw_relic_lists ++ [msg] }
  if ← strEndsWith dto_type "CityDTO" then
    return { b with raw_cities := b.raw_cities ++ [msg] }
  if ← strEndsWith dto_type "AllianceMembersResponse" then
    return { b with raw_alliance_members := some msg }
  if ← strEndsWith dto_type "AllianceCityDTO" then
    return { b with raw_alliance_cities := b.raw_alliance_cities ++ [msg] }
  return b

/-- `classify_startup_messages`: fold the dispatch over the message
stream, starting from freshly reset raw storages. -/
def classify_startup_messages (messages : List JValue) : Except String Buckets :=
  messages.foldlM classifyMsg Buckets.empty

/-! ## The entity model (`build_master_tables` output fields) -/

/-- `self.player_info`. -/
structure PlayerInfo where
  id : JValue
  displayName : JValue
  username : JValue
  allianceId : JValue

/-- One entry of `self.heroes`. -/
structure Hero where
  heroDefinitionId : JValue
  name : JValue
  level : JValue
  ascensionLevel : JValue
  abilityLevel : JValue
  awakeningLevel : JValue
  abilityMasteryPoints : JValue
  unlockedAt : JValue

/-- One entry of `self.decks`. -/
structure Deck where
  definitionId : JValue
  heroes : List JValue

/-- One entry of an equipment group in `self.equipment`. -/
structure EquipItem where
  id : JValue
  slot : JValue
  set : JValue
  rarity : JValue
  level : JValue
  mainAttribute : JValue
  subAttributes : JValue

/-- One entry of a relic group in `self.relics`. -/
structure RelicItem where
  relicDefinitionId : JValue
  level : JValue
  age : JValue

/-- One entry of `self.cities`. -/
structure CityItem where
  id : JValue
  definitionId : JValue
  placedBuildingAmounts : JValue
  buildingLimits : JValue

/-- One entry of `self.alliance_members`. -/
structure AllianceMember where
  id : JValue
  name : JValue
  level : JValue
  power : JValue
  age : JValue

/-- One entry of `self.alliance_cities`. -/
structure AllianceCity where
  id : JValue
  ownerId : JValue
  definitionId : JValue

/-- The mutable model fields of the analyzer object that
`build_master_tables` assigns.  `equipment` and `relics` are Python
dicts mapping a hero display name to the list of grouped items; they are
embedded as association lists in insertion order. -/
structure EntityModel where
  player_info : PlayerInfo
  heroes : List Hero
  decks : List Deck
  equipment : List (String × List EquipItem)
  relics : List (String × List RelicItem)
  cities : List CityItem
  alliance_members : List AllianceMember
  alliance_cities : List AllianceCity

/-- A representative pre-build model state (the build overwrites every
field it assigns, so claims quantify over an arbitrary pre-state; this
one is used for concrete runs). -/
def EntityModel.init : EntityModel :=
  ⟨⟨.null, .null, .null, .null⟩, [], [], [], [], [], [], []⟩

/-! ## `build_master_tables`

The Python method mutates `self` step by step and can raise in the
middle; a raise leaves the fields assigned so far.  Each step is
therefore a function from the current model state, and errors carry the
state at the point of the raise. -/

/-- Tag an error with the model state at the point of the raise. -/
def withSt (s : EntityModel) (e : Except String α) : Except (String × EntityModel) α :=
  e.mapError (fun msg => (msg, s))

/-- The message of the one deliberate raise in `build_master_tables`. -/
def hpErrMsg : String := "No HeroPush message found! Cannot build hero list."

/-- Step 1: `self.player_info` from the `PlayerDTO` singleton (all-null
profile when the singleton is absent or falsy). -/
def stepPlayer (pd : Option JValue) (s : EntityModel) : Except (String × EntityModel) EntityModel :=
  match pd with
  | some p =>
      if pyTruthy p then
        match p with
        | .obj _ =>
            .ok { s with player_info :=
              ⟨jgetN p "id", jgetN p "displayName", jgetN p "username", jgetN p "allianceId"⟩ }
        | _ => .error ("AttributeError: object has no attribute get", s)
      else
        .ok { s with player_info := ⟨.null, .null, .null, .null⟩ }
  | none => .ok { s with player_info := ⟨.null, .null, .null, .null⟩ }

/-- Loop body of step 2: one element of `HeroPush.unlocked` appended to
`self.heroes`.  `h.get(...)` raises on a non-dict element; once `h` is a
dict every `get` succeeds, so the projections are taken totally.  The
display name is `hero_id.replace("hero.", "") if hero_id else None`:
the replace itself raises on a truthy non-string identifier. -/
def heroStep (s : EntityModel) (h : JValue) : Except (String × EntityModel) EntityModel :=
  match h with
  | .obj _ => do
      let hero_id := jgetN h "heroDefinitionId"
      let nm ← withSt s
        (if pyTruthy hero_id then (strReplaceS hero_id "hero." "").map JValue.str
         else .ok .null)
      .ok { s with heroes := s.heroes ++
        [⟨hero_id, nm, jgetN h "level", jgetN h "ascensionLevel", jgetN h "abilityLevel",
          jgetN h "awakeningLevel", jgetN h "abilityMasteryPoints", jgetN h "unlockedAt"⟩] }
  | _ => .error ("AttributeError: object has no attribute get", s)

/-- Step 2 body after the HeroPush presence check: reset `self.heroes`,
read `unlocked` (default `[]`) and fold the loop. -/
def stepHeroes (hp : JValue) (s : EntityModel) : Except (String × EntityModel) EntityModel := do
  let s' := { s with heroes := [] }
  let ul ← withSt s' (dictGet hp "unlocked" (.arr []))
  let l ← withSt s' (toIter ul)
  l.foldlM heroStep s'

/-- Loop body of step 3: one element of `HeroPush.deck` appended to
`self.decks`; the hero list is the comprehension
`[hid.replace("hero.", "") for hid in d.get("heroDefinitionId", [])]`. -/
def deckStep (s : EntityModel) (d : JValue) : Except (String × EntityModel) EntityModel :=
  match d with
  | .obj _ => do
      let hl ← withSt s (toIter (jgetD d "heroDefinitionId" (.arr [])))
      let hs ← withSt s (hl.mapM (fun hid => (strReplaceS hid "hero." "").map JValue.str))
      .ok { s with decks := s.decks ++ [⟨jgetN d "definitionId", hs⟩] }
  | _ => .error ("AttributeError: object has no attribute get", s)

/-- Step 3: reset `self.decks`, read `deck` (default `[]`), fold. -/
def stepDecks (hp : JValue) (s : EntityModel) : Except (String × EntityModel) EntityModel := do
  let s' := { s with decks := [] }
  let dl ← withSt s' (dictGet hp "deck" (.arr []))
  let l ← withSt s' (toIter dl)
  l.foldlM deckStep s'

/-- Append an item to the group of key `k` in a grouped mapping,
creating the group when absent — the Python idiom
`if k not in d: d[k] = []` followed by `d[k].append(x)`. -/
def addGroup : List (String × List α) → String → α → List (String × List α)
  | [], k, x => [(k, [x])]
  | (k', l) :: rest, k, x =>
      if k' = k then (k', l ++ [x]) :: rest else (k', l) :: addGroup rest k x

/-- Loop body of step 4 over one raw equipment entry: keep it only when
`eq.get("equippedOnHeroDefinitionId")` is truthy and a member of the
owned-hero set, grouping under the stripped display name. -/
def equipItemStep (hset : List JValue) (s : EntityModel) (e : JValue) :
    Except (String × EntityModel) EntityModel :=
  match e with
  | .obj _ => do
      let hero_def := jgetN e "equippedOnHeroDefinitionId"
      if pyTruthy hero_def then do
        let isMem ← withSt s (jmemChk hero_def hset)
        if isMem then do
          let hero_name ← withSt s (strReplaceS hero_def "hero." "")
          .ok { s with equipment := (addGroup s.equipment hero_name
            ⟨jgetN e "id", jgetN e "equipmentSlotTypeDefinitionId",
             jgetN e "equipmentSetDefinitionId", jgetN e "equipmentRarityDefinitionId",
             jgetN e "level", jgetN e "mainAttribute", jgetD e "subAttributes" (.arr [])⟩) }
        else .ok s
      else .ok s
  | _ => .error ("AttributeError: object has no attribute get", s)

/-- Step 4: reset `self.equipment = {}` and run the nested loops over
`raw_equipment_lists` (each stored group is itself iterated). -/
def stepEquip (hset : List JValue) (lists : List JValue) (s : EntityModel) :
    Except (String × EntityModel) EntityModel := do
  let s' := { s with equipment := [] }
  lists.foldlM (fun st g => do
    let es ← withSt st (toIter g)
    es.foldlM (equipItemStep hset) st) s'

/-- Loop body of step 5 over one raw relic record: read the nested
`supportingUnit.definitionId` when the key is present (`hero_def` stays
`None` otherwise) and keep the relic under the same owned-set guard. -/
def relicStep (hset : List JValue) (s : EntityModel) (r : JValue) :
    Except (String × EntityModel) EntityModel :=
  match r with
  | .obj fields => do
      let hero_def ← withSt s
        (match jlookup fields "supportingUnit" with
         | some su => dictGetN su "definitionId"
         | none => .ok .null)
      if pyTruthy hero_def then do
        let isMem ← withSt s (jmemChk hero_def hset)
        if isMem then do
          let hero_name ← withSt s (strReplaceS hero_def "hero." "")
          .ok { s with relics := (addGroup s.relics hero_name
            ⟨jgetN r "relicDefinitionId", jgetN r "level", jgetN r "ageDefinitionId"⟩) }
        else .ok s
      else .ok s
  | _ => .error ("AttributeError: object has no attribute get", s)

/-- Step 5: reset `self.relics = {}` and fold over `raw_relic_lists`. -/
def stepRelics (hset : List JValue) (rl : List JValue) (s : EntityModel) :
    Except (String × EntityModel) EntityModel := do
  let s' := { s with relics := [] }
  rl.foldlM (relicStep hset) s'

/-- Loop body of step 6: one element of `PlayerDTO.unlockedCities`
appended to `self.cities`. -/
def cityStep (s : EntityModel) (c : JValue) : Except (String × EntityModel) EntityModel :=
  match c with
  | .obj _ =>
      .ok { s with cities := s.cities ++
        [⟨jgetN c "id", jgetN c "definitionId", jgetD c "placedBuildingAmounts" (.obj []),
          jgetD c "buildingLimits" (.obj [])⟩] }
  | _ => .error ("AttributeError: object has no attribute get", s)

/-- Step 6: reset `self.cities`; read `unlockedCities` from the player
singleton only when it is present and truthy (the classified `CityDTO`
bucket is not consulted), then fold. -/
def stepCities (pd : Option JValue) (s : EntityModel) : Except (String × EntityModel) EntityModel := do
  let s' := { s with cities := [] }
  match pd with
  | some p =>
      if pyTruthy p then do
        let uc ← withSt s' (dictGet p "unlockedCities" (.arr []))
        let l ← withSt s' (toIter uc)
        l.foldlM cityStep s'
      else .ok s'
  | none => .ok s'

/-- Loop body of step 7: one element of `AllianceMembersResponse.members`
appended to `self.alliance_members`. -/
def memberStep (s : EntityModel) (m : JValue) : Except (String × EntityModel) EntityModel :=
  match m with
  | .obj _ =>
      .ok { s with alliance_members := s.alliance_members ++
        [⟨jgetN m "playerId", jgetN m "playerName", jgetN m "level", jgetN m "power",
          jgetN m "ageDefinitionId"⟩] }
  | _ => .error ("AttributeError: object has no attribute get", s)

/-- Step 7: reset `self.alliance_members`; read `members` (default `[]`)
from the alliance singleton when present and truthy, then fold. -/
def stepMembers (am : Option JValue) (s : EntityModel) : Except (String × EntityModel) EntityModel := do
  let s' := { s with alliance_members := [] }
  match am with
  | some a =>
      if pyTruthy a then do
        let ml ← withSt s' (dictGet a "members" (.arr []))
        let l ← withSt s' (toIter ml)
        l.foldlM memberStep s'
      else .ok s'
  | none => .ok s'

/-- Loop body of step 8: one record of `raw_alliance_cities` appended to
`self.alliance_cities`. -/
def acStep (s : EntityModel) (ac : JValue) : Except (String × EntityModel) EntityModel :=
  match ac with
  | .obj _ =>
      .ok { s with alliance_cities := s.alliance_cities ++
        [⟨jgetN ac "id", jgetN ac "playerId", jgetN ac "definitionId"⟩] }
  | _ => .error ("AttributeError: object has no attribute get", s)

/-- Step 8: reset `self.alliance_cities` and fold over
`raw_alliance_cities`. -/
def stepACities (acs : List JValue) (s : EntityModel) : Except (String × EntityModel) EntityModel := do
  let s' := { s with alliance_cities := [] }
  acs.foldlM acStep s'

/-- Whether the HeroPush singleton check `if not self.raw_heropush`
passes: the bucket holds a truthy record. -/
def hpTruthy (hp : Option JValue) : Bool :=
  match hp with
  | some v => pyTruthy v
  | none => false

/-- `build_master_tables`: the eight derivation steps in source order.
The owned-hero set is the Python set
`{h["heroDefinitionId"] for h in self.heroes}` built after step 2. -/
def build_master_tables (b : Buckets) (s : EntityModel) :
    Except (String × EntityModel) EntityModel := do
  let s1 ← stepPlayer b.raw_playerdto s
  if !hpTruthy b.raw_heropush then
    throw (hpErrMsg, s1)
  let hp := b.raw_heropush.getD .null
  let s2 ← stepHeroes hp s1
  let hset ← withSt s2 (mkSet (s2.heroes.map (fun h => h.heroDefinitionId)))
  let s3 ← stepDecks hp s2
  let s4 ← stepEquip hset b.raw_equipment_lists s3
  let s5 ← stepRelics hset b.raw_relic_lists s4
  let s6 ← stepCities b.raw_playerdto s5
  let s7 ← stepMembers b.raw_alliance_members s6
  let s8 ← stepACities b.raw_alliance_cities s7
  pure s8

/-! ## Well-typedness of bucket contents

`build_master_tables` accesses fields defensively through `dict.get`
with defaults, but a field that is present with an ill-typed value (for
instance `null` where the code calls a string or dict method) raises.
The following decidable predicate captures the field shapes under which
every access the builder performs succeeds; on real payloads they hold
by the game's schema. -/

/-- The value is a JSON object. -/
def isObjB : JValue → Bool
  | .obj _ => true
  | _ => false

/-- The value is `null` or a string (the shapes of identifier fields). -/
def isNullOrStrB : JValue → Bool
  | .null => true
  | .str _ => true
  | _ => false

/-- The value is a string. -/
def isStrB : JValue → Bool
  | .str _ => true
  | _ => false

/-- One `unlocked` element: a dict whose `heroDefinitionId` is null,
absent or a string. -/
def wtHeroElem (h : JValue) : Bool :=
  isObjB h && isNullOrStrB (jgetN h "heroDefinitionId")

/-- One `deck` element: a dict whose `heroDefinitionId` list (default
`[]`) is a list of strings. -/
def wtDeckElem (d : JValue) : Bool :=
  isObjB d &&
    (match jgetD d "heroDefinitionId" (.arr []) with
     | .arr hl => hl.all isStrB
     | _ => false)

/-- One stored equipment group: a list of dicts whose equipped-on
identifiers are null, absent or strings. -/
def wtEquipGroup (g : JValue) : Bool :=
  match g with
  | .arr es => es.all (fun e => isObjB e && isNullOrStrB (jgetN e "equippedOnHeroDefinitionId"))
  | _ => false

/-- One raw relic record: a dict whose `supportingUnit`, when present,
is a dict with a null, absent or string `definitionId`. -/
def wtRelicRec (r : JValue) : Bool :=
  match r with
  | .obj fields =>
      match jlookup fields "supportingUnit" with
      | none => true
      | some su => isObjB su && isNullOrStrB (jgetN su "definitionId")
  | _ => false

/-- The player bucket: absent, falsy, or a dict whose `unlockedCities`
(default `[]`) is a list of dicts. -/
def wtPlayer (pd : Option JValue) : Bool :=
  match pd with
  | none => true
  | some p =>
      !pyTruthy p ||
        (isObjB p &&
          (match jgetD p "unlockedCities" (.arr []) with
           | .arr cs => cs.all isObjB
           | _ => false))

/-- The HeroPush bucket: absent, or a dict with well-typed `unlocked`
and `deck` lists. -/
def wtHeroPush (hp : Option JValue) : Bool :=
  match hp with
  | none => true
  | some v =>
      isObjB v &&
        (match jgetD v "unlocked" (.arr []) with
         | .arr l => l.all wtHeroElem
         | _ => false) &&
        (match jgetD v "deck" (.arr []) with
         | .arr dl => dl.all wtDeckElem
         | _ => false)

/-- The alliance-members bucket: absent, falsy, or a dict whose
`members` (default `[]`) is a list of dicts. -/
def wtMembers (am : Option JValue) : Bool :=
  match am with
  | none => true
  | some a =>
      !pyTruthy a ||
        (isObjB a &&
          (match jgetD a "members" (.arr []) with
           | .arr ml => ml.all isObjB
           | _ => false))

/-- All bucket contents are well-typed for the builder's accesses. -/
def wtBuckets (b : Buckets) : Bool :=
  wtPlayer b.raw_playerdto && wtHeroPush b.raw_heropush &&
  b.raw_equipment_lists.all wtEquipGroup && b.raw_relic_lists.all wtRelicRec &&
  wtMembers b.raw_alliance_members && b.raw_alliance_cities.all isObjB

/-! ## Pure recomputation of the built model

Total (error-free) versions of the eight derivation steps.  On
well-typed buckets they agree with `build_master_tables`
(`build_ok_of_wt` below); they are what the per-claim theorems reason
about. -/

/-- Elements of a JSON array, `[]` on other values. -/
def jarrTot : JValue → List JValue
  | .arr l => l
  | _ => []

/-- The display name of a hero identifier value:
`hero_id.replace("hero.", "") if hero_id else None`. -/
def heroNamePure (hid : JValue) : JValue :=
  if pyTruthy hid then
    match hid with
    | .str s => .str (stripHeroS s)
    | v => v
  else .null

/-- One hero entry from one `unlocked` element. -/
def heroPure (h : JValue) : Hero :=
  let hid := jgetN h "heroDefinitionId"
  ⟨hid, heroNamePure hid, jgetN h "level", jgetN h "ascensionLevel", jgetN h "abilityLevel",
   jgetN h "awakeningLevel", jgetN h "abilityMasteryPoints", jgetN h "unlockedAt"⟩

/-- `self.heroes` from the HeroPush record. -/
def heroesPure (hp : JValue) : List Hero :=
  (jarrTot (jgetD hp "unlocked" (.arr []))).map heroPure

/-- The owned-hero-identifier set
`{h["heroDefinitionId"] for h in self.heroes}` (kept as a list; Python
set membership is modelled by `jmemB`). -/
def heroSetPure (hp : JValue) : List JValue :=
  (heroesPure hp).map (fun h => h.heroDefinitionId)

/-- Stripping the namespace from an identifier value (the builder only
reaches this with strings). -/
def stripName (v : JValue) : String :=
  match v with
  | .str s => stripHeroS s
  | _ => ""

/-- The stripped display form of one deck hero identifier (the builder
only reaches this with strings). -/
def stripDeckHero (hid : JValue) : JValue :=
  match hid with
  | .str s => JValue.str (stripHeroS s)
  | v => v

/-- One deck entry from one `deck` element. -/
def deckPure (d : JValue) : Deck :=
  ⟨jgetN d "definitionId",
   (jarrTot (jgetD d "heroDefinitionId" (.arr []))).map stripDeckHero⟩

/-- `self.decks` from the HeroPush record. -/
def decksPure (hp : JValue) : List Deck :=
  (jarrTot (jgetD hp "deck" (.arr []))).map deckPure

/-- The equipped-on hero identifier of a raw equipment entry. -/
def equipRef (e : JValue) : JValue :=
  jgetN e "equippedOnHeroDefinitionId"

/-- The retained projection of a raw equipment entry. -/
def equipProj (e : JValue) : EquipItem :=
  ⟨jgetN e "id", jgetN e "equipmentSlotTypeDefinitionId", jgetN e "equipmentSetDefinitionId",
   jgetN e "equipmentRarityDefinitionId", jgetN e "level", jgetN e "mainAttribute",
   jgetD e "subAttributes" (.arr [])⟩

/-- The inner-join guard for equipment:
`hero_def and hero_def in hero_set`. -/
def equipKeep (hset : List JValue) (e : JValue) : Bool :=
  pyTruthy (equipRef e) && jmemB (equipRef e) hset

/-- One pure accumulation step of the equipment join. -/
def equipStepPure (hset : List JValue) (acc : List (String × List EquipItem)) (e : JValue) :
    List (String × List EquipItem) :=
  if equipKeep hset e then addGroup acc (stripName (equipRef e)) (equipProj e) else acc

/-- Step 4 as a pure fold over the stored groups. -/
def equipPure (hset : List JValue) (lists : List JValue) : List (String × List EquipItem) :=
  lists.foldl (fun acc g => (jarrTot g).foldl (equipStepPure hset) acc) []

/-- The supporting-unit hero identifier of a raw relic record (`None`
when the `supportingUnit` key is absent). -/
def relicRef (r : JValue) : JValue :=
  match r with
  | .obj fields =>
      match jlookup fields "supportingUnit" with
      | some su => jgetN su "definitionId"
      | none => .null
  | _ => .null

/-- The retained projection of a raw relic record. -/
def relicProj (r : JValue) : RelicItem :=
  ⟨jgetN r "relicDefinitionId", jgetN r "level", jgetN r "ageDefinitionId"⟩

/-- The inner-join guard for relics. -/
def relicKeep (hset : List JValue) (r : JValue) : Bool :=
  pyTruthy (relicRef r) && jmemB (relicRef r) hset

/-- One pure accumulation step of the relic join. -/
def relicStepPure (hset : List JValue) (acc : List (String × List RelicItem)) (r : JValue) :
    List (String × List RelicItem) :=
  if relicKeep hset r then addGroup acc (stripName (relicRef r)) (relicProj r) else acc

/-- Step 5 as a pure fold over the raw relic records. -/
def relicsPure (hset : List JValue) (rl : List JValue) : List (String × List RelicItem) :=
  rl.foldl (relicStepPure hset) []

/-- Step 1 as a pure projection. -/
def playerInfoPure (pd : Option JValue) : PlayerInfo :=
  match pd with
  | some p =>
      if pyTruthy p then
        ⟨jgetN p "id", jgetN p "displayName", jgetN p "username", jgetN p "allianceId"⟩
      else ⟨.null, .null, .null, .null⟩
  | none => ⟨.null, .null, .null, .null⟩

/-- One city entry from one `unlockedCities` element. -/
def cityProj (c : JValue) : CityItem :=
  ⟨jgetN c "id", jgetN c "definitionId", jgetD c "placedBuildingAmounts" (.obj []),
   jgetD c "buildingLimits" (.obj [])⟩

/-- Step 6 as a pure map over the player singleton's nested list. -/
def citiesPure (pd : Option JValue) : List CityItem :=
  match pd with
  | some p =>
      if pyTruthy p then (jarrTot (jgetD p "unlockedCities" (.arr []))).map cityProj
      else []
  | none => []

/-- One alliance-member entry. -/
def memberProj (m : JValue) : AllianceMember :=
  ⟨jgetN m "playerId", jgetN m "playerName", jgetN m "level", jgetN m "power",
   jgetN m "ageDefinitionId"⟩

/-- Step 7 as a pure map. -/
def membersPure (am : Option JValue) : List AllianceMember :=
  match am with
  | some a =>
      if pyTruthy a then (jarrTot (jgetD a "members" (.arr []))).map memberProj
      else []
  | none => []

/-- One alliance-city entry. -/
def acProj (ac : JValue) : AllianceCity :=
  ⟨jgetN ac "id", jgetN ac "playerId", jgetN ac "definitionId"⟩

/-- Step 8 as a pure map. -/
def acPure (acs : List JValue) : List AllianceCity :=
  acs.map acProj

/-- The whole entity model as a pure function of the buckets. -/
def modelPure (b : Buckets) : EntityModel :=
  let hp := b.raw_heropush.getD .null
  ⟨playerInfoPure b.raw_playerdto, heroesPure hp, decksPure hp,
   equipPure (heroSetPure hp) b.raw_equipment_lists,
   relicsPure (heroSetPure hp) b.raw_relic_lists,
   citiesPure b.raw_playerdto, membersPure b.raw_alliance_members,
   acPure b.raw_alliance_cities⟩

/-! ## Basic lemmas -/

theorem exc_bind_ok {ε α β : Type} (a : α) (f : α → Except ε β) :
    (Except.ok a : Except ε α) >>= f = f a := rfl

theorem exc_pure_eq_ok {ε α : Type} (a : α) : (pure a : Except ε α) = .ok a := rfl

theorem exc_bind_error {ε α β : Type} (e : ε) (f : α → Except ε β) :
    (Except.error e : Except ε α) >>= f = .error e := rfl

theorem exc_map_ok {ε α β : Type} (g : α → β) (a : α) :
    (Except.ok a : Except ε α).map g = .ok (g a) := rfl

theorem withSt_ok (s : EntityModel) (a : α) :
    withSt s (Except.ok a) = .ok a := rfl

theorem pyEndsWith_iff (s sfx : String) :
    pyEndsWith s sfx = true ↔ sfx.data <:+ s.data := by
  unfold pyEndsWith List.isSuffixOf
  rw [List.isPrefixOf_iff_prefix, List.reverse_prefix]

/-- Suffix dispatch shadowing: every discriminator ending in
`AllianceCityDTO` also ends in `CityDTO`. -/
theorem endsWith_allianceCity_endsWith_city (s : String) :
    pyEndsWith s "AllianceCityDTO" = true → pyEndsWith s "CityDTO" = true := by
  rw [pyEndsWith_iff, pyEndsWith_iff]
  intro h
  exact List.IsSuffix.trans (by decide) h

/-- Two suffix tests with incomparable suffixes cannot both hold. -/
theorem endsWith_incomparable {s a b : String}
    (hab : ¬ a.data <:+ b.data) (hba : ¬ b.data <:+ a.data) :
    pyEndsWith s a = true → pyEndsWith s b = true → False := by
  rw [pyEndsWith_iff, pyEndsWith_iff]
  intro ha hb
  rcases List.suffix_or_suffix_of_suffix ha hb with h | h
  · exact hab h
  · exact hba h

theorem dictGet_obj (fields : List (String × JValue)) (k : String) (d : JValue) :
    dictGet (.obj fields) k d = .ok (jgetD (.obj fields) k d) := rfl

theorem dictGet_of_isObj {v : JValue} (h : isObjB v = true) (k : String) (d : JValue) :
    dictGet v k d = .ok (jgetD v k d) := by
  cases v <;> simp_all [isObjB, dictGet, jgetD, jget]

theorem toIter_arr (l : List JValue) : toIter (.arr l) = .ok l := rfl

theorem jmemChk_of_nullOrStr {x : JValue} (h : isNullOrStrB x = true) (set : List JValue) :
    jmemChk x set = .ok (jmemB x set) := by
  cases x <;> simp_all [isNullOrStrB, jmemChk, jmemB]

theorem mkSet_of_nullOrStr {xs : List JValue} (h : ∀ x ∈ xs, isNullOrStrB x = true) :
    mkSet xs = .ok xs := by
  unfold mkSet
  rw [if_pos]
  rw [List.all_eq_true]
  intro x hx
  have := h x hx
  cases x <;> simp_all [isNullOrStrB]

/-! ## Forward evaluation of the build steps on well-typed buckets -/

theorem stepPlayer_ok (pd : Option JValue) (s : EntityModel) (h : wtPlayer pd = true) :
    stepPlayer pd s = .ok { s with player_info := playerInfoPure pd } := by
  cases pd with
  | none => rfl
  | some p =>
      unfold stepPlayer playerInfoPure
      by_cases ht : pyTruthy p = true
      · simp only [wtPlayer, ht, Bool.not_true, Bool.false_or, Bool.and_eq_true] at h
        obtain ⟨ho, -⟩ := h
        cases p <;> simp_all [isObjB]
      · simp [Bool.eq_false_iff.mpr ht]

theorem heroStep_ok {h : JValue} (hw : wtHeroElem h = true) (s : EntityModel) :
    heroStep s h = .ok { s with heroes := s.heroes ++ [heroPure h] } := by
  unfold wtHeroElem at hw
  rw [Bool.and_eq_true] at hw
  obtain ⟨ho, hid⟩ := hw
  cases h with
  | obj fields =>
      unfold heroStep heroPure heroNamePure
      generalize hg : jgetN (JValue.obj fields) "heroDefinitionId" = v at hid ⊢
      cases v <;> simp_all [isNullOrStrB, strReplaceS, pyTruthy, stripHeroS, withSt,
        Except.mapError, Except.map, exc_bind_ok]
      · rename_i sv
        by_cases hsv : sv = ""
        · subst hsv; rfl
        · simp [hsv]; rfl
  | null => simp [isObjB] at ho
  | bool b => simp [isObjB] at ho
  | num n => simp [isObjB] at ho
  | str s' => simp [isObjB] at ho
  | arr l => simp [isObjB] at ho

theorem heroFold_ok : ∀ (l : List JValue), (∀ h ∈ l, wtHeroElem h = true) →
    ∀ s : EntityModel, l.foldlM heroStep s = .ok { s with heroes := s.heroes ++ l.map heroPure } := by
  intro l
  induction l with
  | nil =>
      intro _ s
      simp only [List.foldlM_nil, List.map_nil, List.append_nil]
      rfl
  | cons h t ih =>
      intro hw s
      have hh := hw h (by simp)
      have ht : ∀ x ∈ t, wtHeroElem x = true := fun x hx => hw x (by simp [hx])
      simp only [List.foldlM_cons, heroStep_ok hh, exc_bind_ok, ih ht]
      simp

theorem stepHeroes_ok {hp : JValue} (ho : isObjB hp = true)
    {l : List JValue} (hu : jgetD hp "unlocked" (.arr []) = .arr l)
    (hw : ∀ h ∈ l, wtHeroElem h = true) (s : EntityModel) :
    stepHeroes hp s = .ok { s with heroes := heroesPure hp } := by
  unfold stepHeroes heroesPure
  rw [dictGet_of_isObj ho, hu]
  simp only [withSt_ok, exc_bind_ok, toIter_arr, heroFold_ok l hw, hu, jarrTot]
  simp

theorem deckHeroes_mapM_ok : ∀ (hl : List JValue), (∀ x ∈ hl, isStrB x = true) →
    hl.mapM (fun hid => (strReplaceS hid "hero." "").map JValue.str) =
      .ok (hl.map stripDeckHero) := by
  intro hl
  induction hl with
  | nil => intro _; rfl
  | cons x t ih =>
      intro hw
      have hx := hw x (List.mem_cons_self x t)
      have ht : ∀ y ∈ t, isStrB y = true := fun y hy => hw y (List.mem_cons_of_mem x hy)
      rw [List.mapM_cons]
      cases x with
      | str sv =>
          have hf : (strReplaceS (JValue.str sv) "hero." "").map JValue.str =
              .ok (JValue.str (pyReplace sv "hero." "")) := rfl
          rw [hf, exc_bind_ok, ih ht, exc_bind_ok]
          rfl
      | null => simp [isStrB] at hx
      | bool b => simp [isStrB] at hx
      | num n => simp [isStrB] at hx
      | arr l => simp [isStrB] at hx
      | obj f => simp [isStrB] at hx

theorem deckStep_ok {d : JValue} (hw : wtDeckElem d = true) (s : EntityModel) :
    deckStep s d = .ok { s with decks := s.decks ++ [deckPure d] } := by
  unfold wtDeckElem at hw
  rw [Bool.and_eq_true] at hw
  obtain ⟨ho, hrest⟩ := hw
  cases d with
  | obj fields =>
      unfold deckStep deckPure
      generalize hg : jgetD (JValue.obj fields) "heroDefinitionId" (.arr []) = v at hrest ⊢
      cases v with
      | arr hl =>
          rw [List.all_eq_true] at hrest
          simp only [toIter_arr, withSt_ok, exc_bind_ok, deckHeroes_mapM_ok hl hrest, jarrTot]
      | null => simp at hrest
      | bool b => simp at hrest
      | num n => simp at hrest
      | str s' => simp at hrest
      | obj f2 => simp at hrest
  | null => simp [isObjB] at ho
  | bool b => simp [isObjB] at ho
  | num n => simp [isObjB] at ho
  | str s' => simp [isObjB] at ho
  | arr l => simp [isObjB] at ho

theorem deckFold_ok : ∀ (l : List JValue), (∀ d ∈ l, wtDeckElem d = true) →
    ∀ s : EntityModel, l.foldlM deckStep s = .ok { s with decks := s.decks ++ l.map deckPure } := by
  intro l
  induction l with
  | nil =>
      intro _ s
      simp only [List.foldlM_nil, List.map_nil, List.append_nil]
      rfl
  | cons d t ih =>
      intro hw s
      have hd := hw d (by simp)
      have ht : ∀ x ∈ t, wtDeckElem x = true := fun x hx => hw x (by simp [hx])
      simp only [List.foldlM_cons, deckStep_ok hd, exc_bind_ok, ih ht]
      simp

theorem stepDecks_ok {hp : JValue} (ho : isObjB hp = true)
    {dl : List JValue} (hu : jgetD hp "deck" (.arr []) = .arr dl)
    (hw : ∀ d ∈ dl, wtDeckElem d = true) (s : EntityModel) :
    stepDecks hp s = .ok { s with decks := decksPure hp } := by
  unfold stepDecks decksPure
  rw [dictGet_of_isObj ho, hu]
  simp only [withSt_ok, exc_bind_ok, toIter_arr, deckFold_ok dl hw, hu, jarrTot]
  simp

theorem equipItemStep_ok {e : JValue} (ho : isObjB e = true)
    (hr : isNullOrStrB (equipRef e) = true) (hset : List JValue) (s : EntityModel) :
    equipItemStep hset s e = .ok { s with equipment := equipStepPure hset s.equipment e } := by
  cases e with
  | obj fields =>
      unfold equipItemStep equipStepPure equipKeep stripName
      generalize hg : equipRef (JValue.obj fields) = v at hr ⊢
      unfold equipRef at hg
      rw [hg]
      cases v with
      | null => rfl
      | str sv =>
          by_cases hsv : sv = ""
          · subst hsv; rfl
          · have htr : pyTruthy (JValue.str sv) = true := by simp [pyTruthy, hsv]
            simp only [htr, if_true, jmemChk, withSt_ok, exc_bind_ok, jmemB, Bool.true_and]
            cases hmem : hset.any (jeqScalar (JValue.str sv)) with
            | true =>
                simp only [if_true, strReplaceS, withSt_ok, exc_bind_ok, stripHeroS]
                rfl
            | false =>
                simp only [Bool.false_eq_true, if_false]
      | bool b => simp [isNullOrStrB] at hr
      | num n => simp [isNullOrStrB] at hr
      | arr l => simp [isNullOrStrB] at hr
      | obj f2 => simp [isNullOrStrB] at hr
  | null => simp [isObjB] at ho
  | bool b => simp [isObjB] at ho
  | num n => simp [isObjB] at ho
  | str s' => simp [isObjB] at ho
  | arr l => simp [isObjB] at ho

theorem equipInnerFold_ok (hset : List JValue) :
    ∀ (es : List JValue),
      (∀ e ∈ es, isObjB e = true ∧ isNullOrStrB (equipRef e) = true) →
      ∀ s : EntityModel, es.foldlM (equipItemStep hset) s =
        .ok { s with equipment := es.foldl (equipStepPure hset) s.equipment } := by
  intro es
  induction es with
  | nil =>
      intro _ s
      simp only [List.foldlM_nil, List.foldl_nil]
      rfl
  | cons e t ih =>
      intro hw s
      obtain ⟨ho, hr⟩ := hw e (List.mem_cons_self e t)
      have ht : ∀ x ∈ t, isObjB x = true ∧ isNullOrStrB (equipRef x) = true :=
        fun x hx => hw x (List.mem_cons_of_mem e hx)
      simp only [List.foldlM_cons, equipItemStep_ok ho hr, exc_bind_ok, ih ht, List.foldl_cons]

theorem equipOuterFold_ok (hset : List JValue) :
    ∀ (lists : List JValue), (∀ g ∈ lists, wtEquipGroup g = true) →
      ∀ s : EntityModel,
        lists.foldlM (fun st g => do
          let es ← withSt st (toIter g)
          es.foldlM (equipItemStep hset) st) s =
        .ok { s with equipment :=
          lists.foldl (fun acc g => (jarrTot g).foldl (equipStepPure hset) acc) s.equipment } := by
  intro lists
  induction lists with
  | nil =>
      intro _ s
      simp only [List.foldlM_nil, List.foldl_nil]
      rfl
  | cons g t ih =>
      intro hw s
      have hg := hw g (List.mem_cons_self g t)
      have ht : ∀ x ∈ t, wtEquipGroup x = true := fun x hx => hw x (List.mem_cons_of_mem g hx)
      unfold wtEquipGroup at hg
      cases g with
      | arr es =>
          rw [List.all_eq_true] at hg
          have hes : ∀ e ∈ es, isObjB e = true ∧ isNullOrStrB (equipRef e) = true := by
            intro e he
            have := hg e he
            rw [Bool.and_eq_true] at this
            exact ⟨this.1, this.2⟩
          simp only [List.foldlM_cons, toIter_arr, withSt_ok, exc_bind_ok,
            equipInnerFold_ok hset es hes, ih ht, List.foldl_cons, jarrTot]
      | null => simp at hg
      | bool b => simp at hg
      | num n => simp at hg
      | str s' => simp at hg
      | obj f => simp at hg

theorem stepEquip_ok (hset : List JValue) {lists : List JValue}
    (hw : ∀ g ∈ lists, wtEquipGroup g = true) (s : EntityModel) :
    stepEquip hset lists s = .ok { s with equipment := equipPure hset lists } := by
  unfold stepEquip equipPure
  rw [equipOuterFold_ok hset lists hw]

theorem relicStep_ok {r : JValue} (hw : wtRelicRec r = true) (hset : List JValue)
    (s : EntityModel) :
    relicStep hset s r = .ok { s with relics := relicStepPure hset s.relics r } := by
  cases r with
  | obj fields =>
      simp only [wtRelicRec] at hw
      simp only [relicStep, relicStepPure, relicKeep, stripName, relicRef]
      cases hsu : jlookup fields "supportingUnit" with
      | none => rfl
      | some su =>
          rw [hsu] at hw
          rw [Bool.and_eq_true] at hw
          obtain ⟨ho, hr⟩ := hw
          have hget : dictGetN su "definitionId" = .ok (jgetN su "definitionId") := by
            cases su <;> simp_all [isObjB, dictGetN, dictGet, jgetN, jgetD, jget]
          simp only [hget]
          generalize hv : jgetN su "definitionId" = v at hr ⊢
          cases v with
          | null => rfl
          | str sv =>
              by_cases hsv : sv = ""
              · subst hsv; rfl
              · have htr : pyTruthy (JValue.str sv) = true := by simp [pyTruthy, hsv]
                simp only [withSt_ok, exc_bind_ok, htr, if_true, jmemChk, jmemB, Bool.true_and]
                cases hmem : hset.any (jeqScalar (JValue.str sv)) with
                | true =>
                    simp only [if_true, strReplaceS, withSt_ok, exc_bind_ok, stripHeroS]
                    rfl
                | false =>
                    simp only [Bool.false_eq_true, if_false]
          | bool b => simp [isNullOrStrB] at hr
          | num n => simp [isNullOrStrB] at hr
          | arr l => simp [isNullOrStrB] at hr
          | obj f2 => simp [isNullOrStrB] at hr
  | null => simp [wtRelicRec] at hw
  | bool b => simp [wtRelicRec] at hw
  | num n => simp [wtRelicRec] at hw
  | str s' => simp [wtRelicRec] at hw
  | arr l => simp [wtRelicRec] at hw

theorem relicFold_ok (hset : List JValue) :
    ∀ (rl : List JValue), (∀ r ∈ rl, wtRelicRec r = true) →
      ∀ s : EntityModel, rl.foldlM (relicStep hset) s =
        .ok { s with relics := rl.foldl (relicStepPure hset) s.relics } := by
  intro rl
  induction rl with
  | nil =>
      intro _ s
      simp only [List.foldlM_nil, List.foldl_nil]
      rfl
  | cons r t ih =>
      intro hw s
      have hr := hw r (List.mem_cons_self r t)
      have ht : ∀ x ∈ t, wtRelicRec x = true := fun x hx => hw x (List.mem_cons_of_mem r hx)
      simp only [List.foldlM_cons, relicStep_ok hr, exc_bind_ok, ih ht, List.foldl_cons]

theorem stepRelics_ok (hset : List JValue) {rl : List JValue}
    (hw : ∀ r ∈ rl, wtRelicRec r = true) (s : EntityModel) :
    stepRelics hset rl s = .ok { s with relics := relicsPure hset rl } := by
  unfold stepRelics relicsPure
  rw [relicFold_ok hset rl hw]

theorem cityFold_ok : ∀ (l : List JValue), (∀ c ∈ l, isObjB c = true) →
    ∀ s : EntityModel, l.foldlM cityStep s = .ok { s with cities := s.cities ++ l.map cityProj } := by
  intro l
  induction l with
  | nil =>
      intro _ s
      simp only [List.foldlM_nil, List.map_nil, List.append_nil]
      rfl
  | cons c t ih =>
      intro hw s
      have hc := hw c (List.mem_cons_self c t)
      have ht : ∀ x ∈ t, isObjB x = true := fun x hx => hw x (List.mem_cons_of_mem c hx)
      have hstep : cityStep s c = .ok { s with cities := s.cities ++ [cityProj c] } := by
        cases c <;> simp_all [isObjB, cityStep, cityProj]
      simp only [List.foldlM_cons, hstep, exc_bind_ok, ih ht]
      simp

theorem stepCities_ok {pd : Option JValue} (hw : wtPlayer pd = true) (s : EntityModel) :
    stepCities pd s = .ok { s with cities := citiesPure pd } := by
  cases pd with
  | none => rfl
  | some p =>
      simp only [stepCities, citiesPure]
      by_cases ht : pyTruthy p = true
      · simp only [wtPlayer, ht, Bool.not_true, Bool.false_or, Bool.and_eq_true] at hw
        obtain ⟨ho, hu⟩ := hw
        rw [ht]
        simp only [if_true]
        rw [dictGet_of_isObj ho]
        generalize hg : jgetD p "unlockedCities" (.arr []) = v at hu ⊢
        cases v with
        | arr cs =>
            rw [List.all_eq_true] at hu
            simp only [withSt_ok, exc_bind_ok, toIter_arr, cityFold_ok cs hu, jarrTot]
            simp
        | null => simp at hu
        | bool bb => simp at hu
        | num n => simp at hu
        | str s2 => simp at hu
        | obj f => simp at hu
      · rw [Bool.eq_false_iff.mpr ht]
        simp

theorem memberFold_ok : ∀ (l : List JValue), (∀ m ∈ l, isObjB m = true) →
    ∀ s : EntityModel, l.foldlM memberStep s =
      .ok { s with alliance_members := s.alliance_members ++ l.map memberProj } := by
  intro l
  induction l with
  | nil =>
      intro _ s
      simp only [List.foldlM_nil, List.map_nil, List.append_nil]
      rfl
  | cons m t ih =>
      intro hw s
      have hm := hw m (List.mem_cons_self m t)
      have ht : ∀ x ∈ t, isObjB x = true := fun x hx => hw x (List.mem_cons_of_mem m hx)
      have hstep : memberStep s m = .ok { s with alliance_members := s.alliance_members ++ [memberProj m] } := by
        cases m <;> simp_all [isObjB, memberStep, memberProj]
      simp only [List.foldlM_cons, hstep, exc_bind_ok, ih ht]
      simp

theorem stepMembers_ok {am : Option JValue} (hw : wtMembers am = true) (s : EntityModel) :
    stepMembers am s = .ok { s with alliance_members := membersPure am } := by
  cases am with
  | none => rfl
  | some a =>
      simp only [stepMembers, membersPure]
      by_cases ht : pyTruthy a = true
      · simp only [wtMembers, ht, Bool.not_true, Bool.false_or, Bool.and_eq_true] at hw
        obtain ⟨ho, hu⟩ := hw
        rw [ht]
        simp only [if_true]
        rw [dictGet_of_isObj ho]
        generalize hg : jgetD a "members" (.arr []) = v at hu ⊢
        cases v with
        | arr ml =>
            rw [List.all_eq_true] at hu
            simp only [withSt_ok, exc_bind_ok, toIter_arr, memberFold_ok ml hu, jarrTot]
            simp
        | null => simp at hu
        | bool bb => simp at hu
        | num n => simp at hu
        | str s2 => simp at hu
        | obj f => simp at hu
      · rw [Bool.eq_false_iff.mpr ht]
        simp

theorem acFold_ok : ∀ (l : List JValue), (∀ x ∈ l, isObjB x = true) →
    ∀ s : EntityModel, l.foldlM acStep s =
      .ok { s with alliance_cities := s.alliance_cities ++ l.map acProj } := by
  intro l
  induction l with
  | nil =>
      intro _ s
      simp only [List.foldlM_nil, List.map_nil, List.append_nil]
      rfl
  | cons x t ih =>
      intro hw s
      have hx := hw x (List.mem_cons_self x t)
      have ht : ∀ y ∈ t, isObjB y = true := fun y hy => hw y (List.mem_cons_of_mem x hy)
      have hstep : acStep s x = .ok { s with alliance_cities := s.alliance_cities ++ [acProj x] } := by
        cases x <;> simp_all [isObjB, acStep, acProj]
      simp only [List.foldlM_cons, hstep, exc_bind_ok, ih ht]
      simp

theorem stepACities_ok {acs : List JValue} (hw : ∀ x ∈ acs, isObjB x = true) (s : EntityModel) :
    stepACities acs s = .ok { s with alliance_cities := acPure acs } := by
  unfold stepACities acPure
  rw [acFold_ok acs hw]
  simp

theorem heroSet_mkSet_ok {hpv : JValue} {ul : List JValue}
    (hg : jgetD hpv "unlocked" (.arr []) = .arr ul)
    (hw : ∀ h ∈ ul, wtHeroElem h = true) :
    mkSet ((heroesPure hpv).map (fun h => h.heroDefinitionId)) = .ok (heroSetPure hpv) := by
  have hns : ∀ x ∈ (heroesPure hpv).map (fun h => h.heroDefinitionId), isNullOrStrB x = true := by
    intro x hx
    simp only [heroesPure, hg, jarrTot, List.map_map, List.mem_map, Function.comp] at hx
    obtain ⟨h, hh, hxe⟩ := hx
    have hwh := hw h hh
    unfold wtHeroElem at hwh
    rw [Bool.and_eq_true] at hwh
    rw [← hxe]
    exact hwh.2
  rw [mkSet_of_nullOrStr hns]
  rfl

/-- On well-typed buckets with a truthy HeroPush singleton,
`build_master_tables` succeeds and returns exactly the pure
recomputation `modelPure` — for any pre-call model state. -/
theorem build_ok_of_wt (b : Buckets) (hwt : wtBuckets b = true)
    (hhp : hpTruthy b.raw_heropush = true) (s : EntityModel) :
    build_master_tables b s = .ok (modelPure b) := by
  unfold wtBuckets at hwt
  repeat rw [Bool.and_eq_true] at hwt
  obtain ⟨⟨⟨⟨⟨h1, h2⟩, h3⟩, h4⟩, h5⟩, h6⟩ := hwt
  rw [List.all_eq_true] at h3 h4 h6
  cases hb : b.raw_heropush with
  | none => rw [hb] at hhp; simp [hpTruthy] at hhp
  | some hpv =>
      rw [hb] at h2 hhp
      simp only [wtHeroPush] at h2
      repeat rw [Bool.and_eq_true] at h2
      obtain ⟨⟨ho, hu⟩, hd⟩ := h2
      generalize hg1 : jgetD hpv "unlocked" (.arr []) = uv at hu
      cases uv with
      | arr ul =>
        rw [List.all_eq_true] at hu
        generalize hg2 : jgetD hpv "deck" (.arr []) = dv at hd
        cases dv with
        | arr dl =>
          rw [List.all_eq_true] at hd
          unfold build_master_tables
          rw [hb]
          simp only [hpTruthy] at hhp
          simp only [hpTruthy, hhp, Bool.not_true, Bool.false_eq_true, if_false, Option.getD,
            exc_pure_eq_ok,
            stepPlayer_ok b.raw_playerdto s h1, exc_bind_ok,
            stepHeroes_ok ho hg1 hu, heroSet_mkSet_ok hg1 hu, withSt_ok,
            stepDecks_ok ho hg2 hd,
            stepEquip_ok (heroSetPure hpv) h3,
            stepRelics_ok (heroSetPure hpv) h4,
            stepCities_ok h1,
            stepMembers_ok h5,
            stepACities_ok h6]
          simp only [modelPure, hb, Option.getD]
        | null => simp at hd
        | bool bb => simp at hd
        | num n => simp at hd
        | str s2 => simp at hd
        | obj f => simp at hd
      | null => simp at hu
      | bool bb => simp at hu
      | num n => simp at hu
      | str s2 => simp at hu
      | obj f => simp at hu

/-! ## Pure recomputation of classification -/

/-- The record's discriminator suffix test as the classifier performs
it: `msg.get("@type", "").endswith(sfx)`, `false` on records where that
would raise. -/
def kindIs (m : JValue) (sfx : String) : Bool :=
  match m with
  | .obj fields =>
      match (jlookup fields "@type").getD (.str "") with
      | .str s => pyEndsWith s sfx
      | _ => false
  | _ => false

/-- `key in msg` on a record (key-presence test), `false` off dicts. -/
def hasKeyB (m : JValue) (k : String) : Bool :=
  match m with
  | .obj fields => (jlookup fields k).isSome
  | _ => false

/-- A message the classifier can process without raising: a dict whose
discriminator field, when present, holds a string. -/
def wfMsg (m : JValue) : Bool :=
  match m with
  | .obj fields =>
      match jlookup fields "@type" with
      | none => true
      | some (.str _) => true
      | some _ => false
  | _ => false

/-- One classifier step as a pure function: the ordered first-match
suffix dispatch. -/
def classifyStepPure (b : Buckets) (m : JValue) : Buckets :=
  if kindIs m "PlayerDTO" then { b with raw_playerdto := some m }
  else if kindIs m "HeroPush" then { b with raw_heropush := some m }
  else if kindIs m "AllEquipmentUnitDataDTO" then
    (if hasKeyB m "allEquipment" then
      { b with raw_equipment_lists := b.raw_equipment_lists ++ [jgetN m "allEquipment"] }
     else b)
  else if kindIs m "RelicUnitDataDTO" then
    { b with raw_relic_lists := b.raw_relic_lists ++ [m] }
  else if kindIs m "CityDTO" then
    { b with raw_cities := b.raw_cities ++ [m] }
  else if kindIs m "AllianceMembersResponse" then
    { b with raw_alliance_members := some m }
  else if kindIs m "AllianceCityDTO" then
    { b with raw_alliance_cities := b.raw_alliance_cities ++ [m] }
  else b

/-- Classification as a pure fold. -/
def classifyPure (ms : List JValue) : Buckets :=
  ms.foldl classifyStepPure Buckets.empty

theorem classifyMsg_ok_iff (b : Buckets) (m : JValue) (b' : Buckets) :
    classifyMsg b m = .ok b' ↔ (wfMsg m = true ∧ b' = classifyStepPure b m) := by
  cases m with
  | obj fields =>
      cases hl : jlookup fields "@type" with
      | none =>
          simp only [classifyMsg, classifyStepPure, kindIs, wfMsg, dictGet, exc_bind_ok, hl,
            Option.getD, strEndsWith]
          have e1 : pyEndsWith "" "PlayerDTO" = false := by decide
          have e2 : pyEndsWith "" "HeroPush" = false := by decide
          have e3 : pyEndsWith "" "AllEquipmentUnitDataDTO" = false := by decide
          have e4 : pyEndsWith "" "RelicUnitDataDTO" = false := by decide
          have e5 : pyEndsWith "" "CityDTO" = false := by decide
          have e6 : pyEndsWith "" "AllianceMembersResponse" = false := by decide
          have e7 : pyEndsWith "" "AllianceCityDTO" = false := by decide
          simp only [e1, e2, e3, e4, e5, e6, e7, Bool.false_eq_true, if_false,
            exc_pure_eq_ok, exc_bind_ok]
          simp [eq_comm]
      | some v =>
          cases v with
          | str sv =>
              simp only [classifyMsg, classifyStepPure, kindIs, wfMsg, dictGet, exc_bind_ok, hl,
                Option.getD, strEndsWith]
              by_cases c1 : pyEndsWith sv "PlayerDTO" = true
              · simp [c1, exc_pure_eq_ok, exc_bind_ok, eq_comm]
              · rw [Bool.eq_false_iff.mpr c1]
                simp only [Bool.false_eq_true, if_false]
                by_cases c2 : pyEndsWith sv "HeroPush" = true
                · simp [c2, exc_pure_eq_ok, exc_bind_ok, eq_comm]
                · rw [Bool.eq_false_iff.mpr c2]
                  simp only [Bool.false_eq_true, if_false]
                  by_cases c3 : pyEndsWith sv "AllEquipmentUnitDataDTO" = true
                  · simp only [c3, if_true, pyContains, exc_bind_ok]
                    cases hk : jlookup fields "allEquipment" with
                    | none =>
                        simp only [Option.isSome_none, Bool.false_eq_true, if_false, hasKeyB, hk,
                          exc_pure_eq_ok, exc_bind_ok]
                        simp [eq_comm]
                    | some w =>
                        simp only [Option.isSome_some, if_true, dictItem, hk, exc_bind_ok,
                          hasKeyB, jgetN, jgetD, jget, Option.getD, exc_pure_eq_ok]
                        simp [eq_comm]
                  · rw [Bool.eq_false_iff.mpr c3]
                    simp only [Bool.false_eq_true, if_false]
                    by_cases c4 : pyEndsWith sv "RelicUnitDataDTO" = true
                    · simp [c4, exc_pure_eq_ok, exc_bind_ok, eq_comm]
                    · rw [Bool.eq_false_iff.mpr c4]
                      simp only [Bool.false_eq_true, if_false]
                      by_cases c5 : pyEndsWith sv "CityDTO" = true
                      · simp [c5, exc_pure_eq_ok, exc_bind_ok, eq_comm]
                      · rw [Bool.eq_false_iff.mpr c5]
                        simp only [Bool.false_eq_true, if_false]
                        by_cases c6 : pyEndsWith sv "AllianceMembersResponse" = true
                        · simp [c6, exc_pure_eq_ok, exc_bind_ok, eq_comm]
                        · rw [Bool.eq_false_iff.mpr c6]
                          simp only [Bool.false_eq_true, if_false]
                          by_cases c7 : pyEndsWith sv "AllianceCityDTO" = true
                          · simp [c7, exc_pure_eq_ok, exc_bind_ok, eq_comm]
                          · rw [Bool.eq_false_iff.mpr c7]
                            simp only [Bool.false_eq_true, if_false, exc_pure_eq_ok, exc_bind_ok]
                            simp [eq_comm]
          | null => simp [classifyMsg, wfMsg, dictGet, hl, strEndsWith, exc_bind_ok, exc_bind_error]
          | bool bb => simp [classifyMsg, wfMsg, dictGet, hl, strEndsWith, exc_bind_ok, exc_bind_error]
          | num n => simp [classifyMsg, wfMsg, dictGet, hl, strEndsWith, exc_bind_ok, exc_bind_error]
          | arr l => simp [classifyMsg, wfMsg, dictGet, hl, strEndsWith, exc_bind_ok, exc_bind_error]
          | obj f2 => simp [classifyMsg, wfMsg, dictGet, hl, strEndsWith, exc_bind_ok, exc_bind_error]
  | null => simp [classifyMsg, dictGet, wfMsg, exc_bind_error]
  | bool bb => simp [classifyMsg, dictGet, wfMsg, exc_bind_error]
  | num n => simp [classifyMsg, dictGet, wfMsg, exc_bind_error]
  | str s2 => simp [classifyMsg, dictGet, wfMsg, exc_bind_error]
  | arr l => simp [classifyMsg, dictGet, wfMsg, exc_bind_error]

theorem classifyFold_ok_iff : ∀ (ms : List JValue) (b bk : Buckets),
    ms.foldlM classifyMsg b = .ok bk ↔
      ((∀ m ∈ ms, wfMsg m = true) ∧ bk = ms.foldl classifyStepPure b) := by
  intro ms
  induction ms with
  | nil =>
      intro b bk
      simp only [List.foldlM_nil, List.foldl_nil, exc_pure_eq_ok]
      constructor
      · intro h
        exact ⟨by simp, ((Except.ok.injEq _ _).mp h).symm⟩
      · rintro ⟨-, rfl⟩
        rfl
  | cons m t ih =>
      intro b bk
      by_cases hwf : wfMsg m = true
      · rw [List.foldlM_cons,
          (classifyMsg_ok_iff b m (classifyStepPure b m)).mpr ⟨hwf, rfl⟩, exc_bind_ok,
          ih (classifyStepPure b m) bk, List.foldl_cons]
        simp [hwf]
      · cases hc : classifyMsg b m with
        | ok b2 =>
            exact absurd ((classifyMsg_ok_iff b m b2).mp hc).1 hwf
        | error e =>
            rw [List.foldlM_cons, hc, exc_bind_error]
            simp only [List.mem_cons]
            constructor
            · intro h
              exact absurd h (by simp)
            · rintro ⟨hall, -⟩
              exact absurd (hall m (Or.inl rfl)) hwf

/-- Exact success characterization of the classifier: it succeeds iff
every message is well formed, and then the buckets are the pure fold. -/
theorem classify_ok_iff (ms : List JValue) (bk : Buckets) :
    classify_startup_messages ms = .ok bk ↔
      ((∀ m ∈ ms, wfMsg m = true) ∧ bk = classifyPure ms) :=
  classifyFold_ok_iff ms Buckets.empty bk

theorem kindIs_excl {a b : String} (hab : ¬ a.data <:+ b.data) (hba : ¬ b.data <:+ a.data)
    {m : JValue} (h : kindIs m a = true) : kindIs m b = false := by
  cases m with
  | obj fields =>
      simp only [kindIs] at h ⊢
      cases hv : (jlookup fields "@type").getD (.str "") with
      | str sv =>
          rw [hv] at h
          cases hb : pyEndsWith sv b with
          | false => exact hb
          | true => exact (endsWith_incomparable hab hba h hb).elim
      | null => rw [hv] at h
      | bool bb => rw [hv] at h
      | num n => rw [hv] at h
      | arr l => rw [hv] at h
      | obj f2 => rw [hv] at h
  | null => exact absurd h (by simp [kindIs])
  | bool bb => exact absurd h (by simp [kindIs])
  | num n => exact absurd h (by simp [kindIs])
  | str s2 => exact absurd h (by simp [kindIs])
  | arr l => exact absurd h (by simp [kindIs])

/-- A record of the alliance-city kind also matches the earlier city
rule: the suffix `AllianceCityDTO` ends in `CityDTO`. -/
theorem kindIs_allianceCity_city {m : JValue} (h : kindIs m "AllianceCityDTO" = true) :
    kindIs m "CityDTO" = true := by
  cases m with
  | obj fields =>
      simp only [kindIs] at h ⊢
      cases hv : (jlookup fields "@type").getD (.str "") with
      | str sv =>
          rw [hv] at h
          exact endsWith_allianceCity_endsWith_city sv h
      | null => rw [hv] at h; simp at h
      | bool bb => rw [hv] at h; simp at h
      | num n => rw [hv] at h; simp at h
      | arr l => rw [hv] at h; simp at h
      | obj f2 => rw [hv] at h; simp at h
  | null => exact absurd h (by simp [kindIs])
  | bool bb => exact absurd h (by simp [kindIs])
  | num n => exact absurd h (by simp [kindIs])
  | str s2 => exact absurd h (by simp [kindIs])
  | arr l => exact absurd h (by simp [kindIs])

/-! ## Per-bucket characterization of one classifier step -/

theorem stepPure_pd (b : Buckets) (m : JValue) :
    (classifyStepPure b m).raw_playerdto =
      (if kindIs m "PlayerDTO" then some m else b.raw_playerdto) := by
  unfold classifyStepPure
  split_ifs <;> rfl

theorem stepPure_hp (b : Buckets) (m : JValue) :
    (classifyStepPure b m).raw_heropush =
      (if kindIs m "HeroPush" then some m else b.raw_heropush) := by
  have hx : kindIs m "HeroPush" = true → kindIs m "PlayerDTO" = false :=
    kindIs_excl (by decide) (by decide)
  unfold classifyStepPure
  split_ifs <;> simp_all

theorem stepPure_am (b : Buckets) (m : JValue) :
    (classifyStepPure b m).raw_alliance_members =
      (if kindIs m "AllianceMembersResponse" then some m else b.raw_alliance_members) := by
  have h1 : kindIs m "AllianceMembersResponse" = true → kindIs m "PlayerDTO" = false :=
    kindIs_excl (by decide) (by decide)
  have h2 : kindIs m "AllianceMembersResponse" = true → kindIs m "HeroPush" = false :=
    kindIs_excl (by decide) (by decide)
  have h3 : kindIs m "AllianceMembersResponse" = true → kindIs m "AllEquipmentUnitDataDTO" = false :=
    kindIs_excl (by decide) (by decide)
  have h4 : kindIs m "AllianceMembersResponse" = true → kindIs m "RelicUnitDataDTO" = false :=
    kindIs_excl (by decide) (by decide)
  have h5 : kindIs m "AllianceMembersResponse" = true → kindIs m "CityDTO" = false :=
    kindIs_excl (by decide) (by decide)
  unfold classifyStepPure
  split_ifs <;> simp_all

theorem stepPure_eq (b : Buckets) (m : JValue) :
    (classifyStepPure b m).raw_equipment_lists =
      (if kindIs m "AllEquipmentUnitDataDTO" && hasKeyB m "allEquipment" then
        b.raw_equipment_lists ++ [jgetN m "allEquipment"]
       else b.raw_equipment_lists) := by
  have h1 : kindIs m "AllEquipmentUnitDataDTO" = true → kindIs m "PlayerDTO" = false :=
    kindIs_excl (by decide) (by decide)
  have h2 : kindIs m "AllEquipmentUnitDataDTO" = true → kindIs m "HeroPush" = false :=
    kindIs_excl (by decide) (by decide)
  unfold classifyStepPure
  split_ifs <;> simp_all

theorem stepPure_cities (b : Buckets) (m : JValue) :
    (classifyStepPure b m).raw_cities =
      (if kindIs m "CityDTO" then b.raw_cities ++ [m] else b.raw_cities) := by
  have h1 : kindIs m "CityDTO" = true → kindIs m "PlayerDTO" = false :=
    kindIs_excl (by decide) (by decide)
  have h2 : kindIs m "CityDTO" = true → kindIs m "HeroPush" = false :=
    kindIs_excl (by decide) (by decide)
  have h3 : kindIs m "CityDTO" = true → kindIs m "AllEquipmentUnitDataDTO" = false :=
    kindIs_excl (by decide) (by decide)
  have h4 : kindIs m "CityDTO" = true → kindIs m "RelicUnitDataDTO" = false :=
    kindIs_excl (by decide) (by decide)
  unfold classifyStepPure
  split_ifs <;> simp_all

/-- The alliance-city rule is unreachable: a record matching it would
already have been captured by the earlier `CityDTO` rule, so no
classifier step ever appends to `raw_alliance_cities`. -/
theorem stepPure_ac (b : Buckets) (m : JValue) :
    (classifyStepPure b m).raw_alliance_cities = b.raw_alliance_cities := by
  unfold classifyStepPure
  split_ifs <;>
    first
    | rfl
    | (rename_i hc ham hac
       exact absurd (kindIs_allianceCity_city hac) hc)

/-! ## Stream-level characterization of classification -/

/-- The last record of a stream whose discriminator matches `sfx`
(`none` when there is none). -/
def lastMatch (sfx : String) : List JValue → Option JValue
  | [] => none
  | m :: ms =>
      match lastMatch sfx ms with
      | some x => some x
      | none => if kindIs m sfx then some m else none

theorem foldPure_ac : ∀ (ms : List JValue) (b : Buckets),
    (ms.foldl classifyStepPure b).raw_alliance_cities = b.raw_alliance_cities := by
  intro ms
  induction ms with
  | nil => intro b; rfl
  | cons m t ih =>
      intro b
      rw [List.foldl_cons, ih, stepPure_ac]

theorem foldPure_pd : ∀ (ms : List JValue) (b : Buckets),
    (ms.foldl classifyStepPure b).raw_playerdto =
      (match lastMatch "PlayerDTO" ms with
       | some x => some x
       | none => b.raw_playerdto) := by
  intro ms
  induction ms with
  | nil => intro b; rfl
  | cons m t ih =>
      intro b
      rw [List.foldl_cons, ih, lastMatch]
      cases lastMatch "PlayerDTO" t with
      | some x => rfl
      | none =>
          rw [stepPure_pd]
          cases kindIs m "PlayerDTO" <;> rfl

theorem foldPure_hp : ∀ (ms : List JValue) (b : Buckets),
    (ms.foldl classifyStepPure b).raw_heropush =
      (match lastMatch "HeroPush" ms with
       | some x => some x
       | none => b.raw_heropush) := by
  intro ms
  induction ms with
  | nil => intro b; rfl
  | cons m t ih =>
      intro b
      rw [List.foldl_cons, ih, lastMatch]
      cases lastMatch "HeroPush" t with
      | some x => rfl
      | none =>
          rw [stepPure_hp]
          cases kindIs m "HeroPush" <;> rfl

theorem foldPure_am : ∀ (ms : List JValue) (b : Buckets),
    (ms.foldl classifyStepPure b).raw_alliance_members =
      (match lastMatch "AllianceMembersResponse" ms with
       | some x => some x
       | none => b.raw_alliance_members) := by
  intro ms
  induction ms with
  | nil => intro b; rfl
  | cons m t ih =>
      intro b
      rw [List.foldl_cons, ih, lastMatch]
      cases lastMatch "AllianceMembersResponse" t with
      | some x => rfl
      | none =>
          rw [stepPure_am]
          cases kindIs m "AllianceMembersResponse" <;> rfl

theorem foldPure_eq : ∀ (ms : List JValue) (b : Buckets),
    (ms.foldl classifyStepPure b).raw_equipment_lists =
      b.raw_equipment_lists ++
        (ms.filter (fun m => kindIs m "AllEquipmentUnitDataDTO" && hasKeyB m "allEquipment")).map
          (fun m => jgetN m "allEquipment") := by
  intro ms
  induction ms with
  | nil => intro b; simp
  | cons m t ih =>
      intro b
      rw [List.foldl_cons, ih, List.filter_cons]
      cases hc : kindIs m "AllEquipmentUnitDataDTO" && hasKeyB m "allEquipment" with
      | true =>
          simp only [if_true, List.map_cons, stepPure_eq, hc]
          simp
      | false =>
          simp only [Bool.false_eq_true, if_false, stepPure_eq, hc]

theorem foldPure_cities : ∀ (ms : List JValue) (b : Buckets),
    (ms.foldl classifyStepPure b).raw_cities =
      b.raw_cities ++ ms.filter (fun m => kindIs m "CityDTO") := by
  intro ms
  induction ms with
  | nil => intro b; simp
  | cons m t ih =>
      intro b
      rw [List.foldl_cons, ih, List.filter_cons]
      cases hc : kindIs m "CityDTO" with
      | true =>
          simp only [if_true, stepPure_cities, hc]
          simp
      | false =>
          simp only [Bool.false_eq_true, if_false, stepPure_cities, hc]

/-! ## Lemmas about grouped mappings -/

/-- Dict lookup in a grouped mapping (association list). -/
def lookupG {α : Type} : List (String × List α) → String → Option (List α)
  | [], _ => none
  | (k, l) :: rest, key => if k = key then some l else lookupG rest key

/-- The items grouped under a key (`[]` when the key is absent). -/
def groupD {α : Type} (g : List (String × List α)) (k : String) : List α :=
  (lookupG g k).getD []

/-- Total number of items over all groups. -/
def groupCount {α : Type} (g : List (String × List α)) : Nat :=
  (g.map (fun kv => kv.2.length)).sum

theorem lookupG_addGroup {α : Type} : ∀ (g : List (String × List α)) (k : String) (x : α)
    (k' : String), lookupG (addGroup g k x) k' =
      (if k' = k then some (groupD g k ++ [x]) else lookupG g k') := by
  intro g
  induction g with
  | nil =>
      intro k x k'
      by_cases h : k' = k
      · subst h; simp [addGroup, lookupG, groupD]
      · simp [addGroup, lookupG, groupD, h, Ne.symm h]
  | cons kv rest ih =>
      intro k x k'
      obtain ⟨k0, l0⟩ := kv
      by_cases h0 : k0 = k
      · subst h0
        simp only [addGroup, if_pos rfl]
        by_cases h1 : k' = k0
        · subst h1; simp [lookupG, groupD]
        · simp [lookupG, h1, Ne.symm h1]
      · simp only [addGroup, if_neg h0]
        by_cases h1 : k' = k0
        · subst h1
          simp [lookupG, groupD, h0]
        · simp only [lookupG, if_neg (Ne.symm h1), ih]
          by_cases h2 : k' = k
          · subst h2
            simp [groupD, lookupG, if_neg (Ne.symm h1)]
          · simp [h2]

theorem groupD_addGroup {α : Type} (g : List (String × List α)) (k : String) (x : α)
    (k' : String) : groupD (addGroup g k x) k' =
      (if k' = k then groupD g k ++ [x] else groupD g k') := by
  unfold groupD
  rw [lookupG_addGroup]
  by_cases h : k' = k <;> simp [h, groupD]

theorem groupCount_addGroup {α : Type} : ∀ (g : List (String × List α)) (k : String) (x : α),
    groupCount (addGroup g k x) = groupCount g + 1 := by
  intro g
  induction g with
  | nil => intro k x; simp [addGroup, groupCount]
  | cons kv rest ih =>
      intro k x
      obtain ⟨k0, l0⟩ := kv
      have ih2 := ih k x
      simp only [groupCount] at ih2 ⊢
      by_cases h0 : k0 = k
      · subst h0
        simp [addGroup]
        omega
      · simp [addGroup, h0, ih2]
        omega

/-- All raw equipment entries of the stored groups, flattened in order
(step 4's nested loops visit exactly these). -/
def flatEntries (lists : List JValue) : List JValue :=
  (lists.map jarrTot).flatten

theorem foldl_nested {α : Type} (step : α → JValue → α) : ∀ (lists : List JValue) (acc : α),
    lists.foldl (fun a g => (jarrTot g).foldl step a) acc =
      ((lists.map jarrTot).flatten).foldl step acc := by
  intro lists
  induction lists with
  | nil => intro acc; rfl
  | cons g t ih =>
      intro acc
      rw [List.foldl_cons, ih, List.map_cons, List.flatten_cons, List.foldl_append]

theorem equipFold_groupD (hset : List JValue) : ∀ (entries : List JValue)
    (acc : List (String × List EquipItem)) (hn : String),
    groupD (entries.foldl (equipStepPure hset) acc) hn =
      groupD acc hn ++
        (entries.filter (fun e => equipKeep hset e && (stripName (equipRef e) == hn))).map
          equipProj := by
  intro entries
  induction entries with
  | nil => intro acc hn; simp
  | cons e t ih =>
      intro acc hn
      rw [List.foldl_cons, ih, List.filter_cons]
      unfold equipStepPure
      cases hk : equipKeep hset e with
      | true =>
          rw [if_pos rfl, groupD_addGroup]
          by_cases hnm : hn = stripName (equipRef e)
          · have : (stripName (equipRef e) == hn) = true := by
              rw [beq_iff_eq, hnm]
            simp [this, hnm]
          · have : (stripName (equipRef e) == hn) = false := by
              rw [beq_eq_false_iff_ne]
              exact fun hh => hnm hh.symm
            simp [this, hnm]
      | false =>
          simp only [Bool.false_eq_true, if_false, Bool.false_and]

theorem relicFold_groupD (hset : List JValue) : ∀ (rl : List JValue)
    (acc : List (String × List RelicItem)) (hn : String),
    groupD (rl.foldl (relicStepPure hset) acc) hn =
      groupD acc hn ++
        (rl.filter (fun r => relicKeep hset r && (stripName (relicRef r) == hn))).map
          relicProj := by
  intro rl
  induction rl with
  | nil => intro acc hn; simp
  | cons r t ih =>
      intro acc hn
      rw [List.foldl_cons, ih, List.filter_cons]
      unfold relicStepPure
      cases hk : relicKeep hset r with
      | true =>
          rw [if_pos rfl, groupD_addGroup]
          by_cases hnm : hn = stripName (relicRef r)
          · have : (stripName (relicRef r) == hn) = true := by
              rw [beq_iff_eq, hnm]
            simp [this, hnm]
          · have : (stripName (relicRef r) == hn) = false := by
              rw [beq_eq_false_iff_ne]
              exact fun hh => hnm hh.symm
            simp [this, hnm]
      | false =>
          simp only [Bool.false_eq_true, if_false, Bool.false_and]

theorem equipFold_count (hset : List JValue) : ∀ (entries : List JValue)
    (acc : List (String × List EquipItem)),
    groupCount (entries.foldl (equipStepPure hset) acc) =
      groupCount acc + entries.countP (equipKeep hset) := by
  intro entries
  induction entries with
  | nil => intro acc; simp
  | cons e t ih =>
      intro acc
      rw [List.foldl_cons, ih, List.countP_cons]
      unfold equipStepPure
      cases hk : equipKeep hset e with
      | true => rw [if_pos rfl, groupCount_addGroup, if_pos rfl]; omega
      | false => simp only [Bool.false_eq_true, if_false]; omega

theorem relicFold_count (hset : List JValue) : ∀ (rl : List JValue)
    (acc : List (String × List RelicItem)),
    groupCount (rl.foldl (relicStepPure hset) acc) =
      groupCount acc + rl.countP (relicKeep hset) := by
  intro rl
  induction rl with
  | nil => intro acc; simp
  | cons r t ih =>
      intro acc
      rw [List.foldl_cons, ih, List.countP_cons]
      unfold relicStepPure
      cases hk : relicKeep hset r with
      | true => rw [if_pos rfl, groupCount_addGroup, if_pos rfl]; omega
      | false => simp only [Bool.false_eq_true, if_false]; omega

/-- The equipment groups of the built model, characterized entry-wise:
each group holds exactly the projections of the flattened entries whose
join guard passes and whose stripped name is the group key, in order. -/
theorem equipPure_groupD (hset : List JValue) (lists : List JValue) (hn : String) :
    groupD (equipPure hset lists) hn =
      ((flatEntries lists).filter
        (fun e => equipKeep hset e && (stripName (equipRef e) == hn))).map equipProj := by
  unfold equipPure flatEntries
  rw [foldl_nested, equipFold_groupD]
  rfl

/-- The relic groups of the built model, characterized entry-wise. -/
theorem relicsPure_groupD (hset : List JValue) (rl : List JValue) (hn : String) :
    groupD (relicsPure hset rl) hn =
      (rl.filter (fun r => relicKeep hset r && (stripName (relicRef r) == hn))).map
        relicProj := by
  unfold relicsPure
  rw [relicFold_groupD]
  rfl

theorem equipPure_count (hset : List JValue) (lists : List JValue) :
    groupCount (equipPure hset lists) = (flatEntries lists).countP (equipKeep hset) := by
  unfold equipPure flatEntries
  rw [foldl_nested, equipFold_count]
  simp [groupCount]

theorem relicsPure_count (hset : List JValue) (rl : List JValue) :
    groupCount (relicsPure hset rl) = rl.countP (relicKeep hset) := by
  unfold relicsPure
  rw [relicFold_count]
  simp [groupCount]

theorem stepPure_relics (b : Buckets) (m : JValue) :
    (classifyStepPure b m).raw_relic_lists =
      (if kindIs m "RelicUnitDataDTO" then b.raw_relic_lists ++ [m] else b.raw_relic_lists) := by
  have h1 : kindIs m "RelicUnitDataDTO" = true → kindIs m "PlayerDTO" = false :=
    kindIs_excl (by decide) (by decide)
  have h2 : kindIs m "RelicUnitDataDTO" = true → kindIs m "HeroPush" = false :=
    kindIs_excl (by decide) (by decide)
  have h3 : kindIs m "RelicUnitDataDTO" = true → kindIs m "AllEquipmentUnitDataDTO" = false :=
    kindIs_excl (by decide) (by decide)
  unfold classifyStepPure
  split_ifs <;> simp_all

/-- A record matching a suffix that the empty discriminator does not
match is a non-empty dict, hence truthy. -/
theorem kindIs_obj_truthy {m : JValue} {sfx : String} (hs : pyEndsWith "" sfx = false)
    (h : kindIs m sfx = true) : isObjB m = true ∧ pyTruthy m = true := by
  cases m with
  | obj fields =>
      refine ⟨rfl, ?_⟩
      cases fields with
      | nil =>
          simp only [kindIs, jlookup, Option.getD] at h
          rw [hs] at h
          exact absurd h (by simp)
      | cons kv rest => rfl
  | null => exact absurd h (by simp [kindIs])
  | bool bb => exact absurd h (by simp [kindIs])
  | num n => exact absurd h (by simp [kindIs])
  | str s2 => exact absurd h (by simp [kindIs])
  | arr l => exact absurd h (by simp [kindIs])

theorem lastMatch_kindIs {sfx : String} : ∀ {ms : List JValue} {x : JValue},
    lastMatch sfx ms = some x → kindIs x sfx = true := by
  intro ms
  induction ms with
  | nil => intro x h; exact absurd h (by simp [lastMatch])
  | cons m t ih =>
      intro x h
      rw [lastMatch] at h
      cases hl : lastMatch sfx t with
      | some y =>
          rw [hl] at h
          cases h
          exact ih hl
      | none =>
          rw [hl] at h
          cases hk : kindIs m sfx with
          | true =>
              rw [hk] at h
              simp only [if_true] at h
              cases h
              exact hk
          | false =>
              rw [hk] at h
              exact absurd h (by simp)

/-! ## Frame preservation of the profile field through the build -/

theorem foldlM_preserve {σ β : Type} (f : σ → JValue → Except (String × σ) σ) (proj : σ → β)
    (hf : ∀ s x s', f s x = .ok s' → proj s' = proj s) :
    ∀ (l : List JValue) (s s' : σ), l.foldlM f s = .ok s' → proj s' = proj s := by
  intro l
  induction l with
  | nil =>
      intro s s' h
      cases h
      rfl
  | cons x t ih =>
      intro s s' h
      rw [List.foldlM_cons] at h
      cases hx : f s x with
      | ok s1 =>
          rw [hx, exc_bind_ok] at h
          rw [ih s1 s' h, hf s x s1 hx]
      | error e =>
          rw [hx, exc_bind_error] at h
          exact absurd h (by simp)

theorem heroStep_pi {s s' : EntityModel} {h : JValue} (hs : heroStep s h = .ok s') :
    s'.player_info = s.player_info := by
  cases h with
  | obj fields =>
      simp only [heroStep] at hs
      cases hx : (if pyTruthy (jgetN (JValue.obj fields) "heroDefinitionId") = true then
          (strReplaceS (jgetN (JValue.obj fields) "heroDefinitionId") "hero." "").map JValue.str
        else Except.ok JValue.null) with
      | ok nv =>
          rw [hx, withSt_ok, exc_bind_ok] at hs
          cases hs
          rfl
      | error e =>
          rw [hx] at hs
          simp [withSt, Except.mapError, exc_bind_error] at hs
  | null => exact absurd hs (by simp [heroStep])
  | bool bb => exact absurd hs (by simp [heroStep])
  | num n => exact absurd hs (by simp [heroStep])
  | str s2 => exact absurd hs (by simp [heroStep])
  | arr l => exact absurd hs (by simp [heroStep])

theorem deckStep_pi {s s' : EntityModel} {d : JValue} (hs : deckStep s d = .ok s') :
    s'.player_info = s.player_info := by
  cases d with
  | obj fields =>
      simp only [deckStep] at hs
      cases hx : toIter (jgetD (JValue.obj fields) "heroDefinitionId" (.arr [])) with
      | ok l =>
          rw [hx, withSt_ok, exc_bind_ok] at hs
          cases hy : l.mapM (fun hid => (strReplaceS hid "hero." "").map JValue.str) with
          | ok hl =>
              rw [hy, withSt_ok, exc_bind_ok] at hs
              cases hs
              rfl
          | error e =>
              rw [hy] at hs
              simp [withSt, Except.mapError, exc_bind_error] at hs
      | error e =>
          rw [hx] at hs
          simp [withSt, Except.mapError, exc_bind_error] at hs
  | null => exact absurd hs (by simp [deckStep])
  | bool bb => exact absurd hs (by simp [deckStep])
  | num n => exact absurd hs (by simp [deckStep])
  | str s2 => exact absurd hs (by simp [deckStep])
  | arr l => exact absurd hs (by simp [deckStep])

theorem equipItemStep_pi {hset : List JValue} {s s' : EntityModel} {e : JValue}
    (hs : equipItemStep hset s e = .ok s') : s'.player_info = s.player_info := by
  cases e with
  | obj fields =>
      simp only [equipItemStep] at hs
      by_cases ht : pyTruthy (jgetN (JValue.obj fields) "equippedOnHeroDefinitionId") = true
      · rw [if_pos ht] at hs
        cases hx : jmemChk (jgetN (JValue.obj fields) "equippedOnHeroDefinitionId") hset with
        | ok mv =>
            rw [hx, withSt_ok, exc_bind_ok] at hs
            cases mv with
            | true =>
                simp only [if_true] at hs
                cases hy : strReplaceS (jgetN (JValue.obj fields) "equippedOnHeroDefinitionId")
                    "hero." "" with
                | ok hn =>
                    rw [hy, withSt_ok, exc_bind_ok] at hs
                    cases hs
                    rfl
                | error e2 =>
                    rw [hy] at hs
                    simp [withSt, Except.mapError, exc_bind_error] at hs
            | false =>
                simp only [Bool.false_eq_true, if_false] at hs
                cases hs
                rfl
        | error e2 =>
            rw [hx] at hs
            simp [withSt, Except.mapError, exc_bind_error] at hs
      · rw [if_neg ht] at hs
        cases hs
        rfl
  | null => exact absurd hs (by simp [equipItemStep])
  | bool bb => exact absurd hs (by simp [equipItemStep])
  | num n => exact absurd hs (by simp [equipItemStep])
  | str s2 => exact absurd hs (by simp [equipItemStep])
  | arr l => exact absurd hs (by simp [equipItemStep])

theorem relicStep_pi {hset : List JValue} {s s' : EntityModel} {r : JValue}
    (hs : relicStep hset s r = .ok s') : s'.player_info = s.player_info := by
  cases r with
  | obj fields =>
      simp only [relicStep] at hs
      cases hx : (match jlookup fields "supportingUnit" with
          | some su => dictGetN su "definitionId"
          | none => Except.ok JValue.null) with
      | ok hd =>
          rw [hx, withSt_ok, exc_bind_ok] at hs
          by_cases ht : pyTruthy hd = true
          · rw [if_pos ht] at hs
            cases hy : jmemChk hd hset with
            | ok mv =>
                rw [hy, withSt_ok, exc_bind_ok] at hs
                cases mv with
                | true =>
                    simp only [if_true] at hs
                    cases hz : strReplaceS hd "hero." "" with
                    | ok hn =>
                        rw [hz, withSt_ok, exc_bind_ok] at hs
                        cases hs
                        rfl
                    | error e2 =>
                        rw [hz] at hs
                        simp [withSt, Except.mapError, exc_bind_error] at hs
                | false =>
                    simp only [Bool.false_eq_true, if_false] at hs
                    cases hs
                    rfl
            | error e2 =>
                rw [hy] at hs
                simp [withSt, Except.mapError, exc_bind_error] at hs
          · rw [if_neg ht] at hs
            cases hs
            rfl
      | error e2 =>
          rw [hx] at hs
          simp [withSt, Except.mapError, exc_bind_error] at hs
  | null => exact absurd hs (by simp [relicStep])
  | bool bb => exact absurd hs (by simp [relicStep])
  | num n => exact absurd hs (by simp [relicStep])
  | str s2 => exact absurd hs (by simp [relicStep])
  | arr l => exact absurd hs (by simp [relicStep])

theorem cityStep_pi {s s' : EntityModel} {c : JValue} (hs : cityStep s c = .ok s') :
    s'.player_info = s.player_info := by
  cases c with
  | obj fields => cases hs; rfl
  | null => exact absurd hs (by simp [cityStep])
  | bool bb => exact absurd hs (by simp [cityStep])
  | num n => exact absurd hs (by simp [cityStep])
  | str s2 => exact absurd hs (by simp [cityStep])
  | arr l => exact absurd hs (by simp [cityStep])

theorem memberStep_pi {s s' : EntityModel} {m : JValue} (hs : memberStep s m = .ok s') :
    s'.player_info = s.player_info := by
  cases m with
  | obj fields => cases hs; rfl
  | null => exact absurd hs (by simp [memberStep])
  | bool bb => exact absurd hs (by simp [memberStep])
  | num n => exact absurd hs (by simp [memberStep])
  | str s2 => exact absurd hs (by simp [memberStep])
  | arr l => exact absurd hs (by simp [memberStep])

theorem acStep_pi {s s' : EntityModel} {ac : JValue} (hs : acStep s ac = .ok s') :
    s'.player_info = s.player_info := by
  cases ac with
  | obj fields => cases hs; rfl
  | null => exact absurd hs (by simp [acStep])
  | bool bb => exact absurd hs (by simp [acStep])
  | num n => exact absurd hs (by simp [acStep])
  | str s2 => exact absurd hs (by simp [acStep])
  | arr l => exact absurd hs (by simp [acStep])

theorem stepPlayer_pi {pd : Option JValue} {s s' : EntityModel}
    (hs : stepPlayer pd s = .ok s') : s'.player_info = playerInfoPure pd := by
  cases pd with
  | none => cases hs; rfl
  | some p =>
      simp only [stepPlayer, playerInfoPure] at hs ⊢
      by_cases ht : pyTruthy p = true
      · rw [if_pos ht] at hs
        rw [if_pos ht]
        cases p with
        | obj fields => cases hs; rfl
        | null => exact absurd hs (by simp)
        | bool bb => exact absurd hs (by simp)
        | num n => exact absurd hs (by simp)
        | str s2 => exact absurd hs (by simp)
        | arr l => exact absurd hs (by simp)
      · rw [if_neg ht] at hs
        rw [if_neg ht]
        cases hs
        rfl

theorem stepHeroes_pi {hp : JValue} {s s' : EntityModel}
    (hs : stepHeroes hp s = .ok s') : s'.player_info = s.player_info := by
  simp only [stepHeroes] at hs
  cases hx : dictGet hp "unlocked" (.arr []) with
  | ok ul =>
      rw [hx, withSt_ok, exc_bind_ok] at hs
      cases hy : toIter ul with
      | ok l =>
          rw [hy, withSt_ok, exc_bind_ok] at hs
          exact foldlM_preserve heroStep (fun t => t.player_info)
            (fun a x a' hh => heroStep_pi hh) l { s with heroes := [] } s' hs
      | error e =>
          rw [hy] at hs
          simp [withSt, Except.mapError, exc_bind_error] at hs
  | error e =>
      rw [hx] at hs
      simp [withSt, Except.mapError, exc_bind_error] at hs

theorem stepDecks_pi {hp : JValue} {s s' : EntityModel}
    (hs : stepDecks hp s = .ok s') : s'.player_info = s.player_info := by
  simp only [stepDecks] at hs
  cases hx : dictGet hp "deck" (.arr []) with
  | ok dl =>
      rw [hx, withSt_ok, exc_bind_ok] at hs
      cases hy : toIter dl with
      | ok l =>
          rw [hy, withSt_ok, exc_bind_ok] at hs
          exact foldlM_preserve deckStep (fun t => t.player_info)
            (fun a x a' hh => deckStep_pi hh) l { s with decks := [] } s' hs
      | error e =>
          rw [hy] at hs
          simp [withSt, Except.mapError, exc_bind_error] at hs
  | error e =>
      rw [hx] at hs
      simp [withSt, Except.mapError, exc_bind_error] at hs

theorem stepEquip_pi {hset : List JValue} {lists : List JValue} {s s' : EntityModel}
    (hs : stepEquip hset lists s = .ok s') : s'.player_info = s.player_info := by
  simp only [stepEquip] at hs
  refine foldlM_preserve (fun st g => do
      let es ← withSt st (toIter g)
      es.foldlM (equipItemStep hset) st) (fun t => t.player_info) ?_ lists
      { s with equipment := [] } s' hs
  intro a g a' hh
  replace hh : (do
      let es ← withSt a (toIter g)
      es.foldlM (equipItemStep hset) a) = .ok a' := hh
  cases hx : toIter g with
  | ok es =>
      rw [hx, withSt_ok, exc_bind_ok] at hh
      exact foldlM_preserve (equipItemStep hset) (fun t => t.player_info)
        (fun a2 x a2' hh2 => equipItemStep_pi hh2) es a a' hh
  | error e =>
      rw [hx] at hh
      simp [withSt, Except.mapError, exc_bind_error] at hh

theorem stepRelics_pi {hset : List JValue} {rl : List JValue} {s s' : EntityModel}
    (hs : stepRelics hset rl s = .ok s') : s'.player_info = s.player_info := by
  simp only [stepRelics] at hs
  exact foldlM_preserve (relicStep hset) (fun t => t.player_info)
    (fun a x a' hh => relicStep_pi hh) rl { s with relics := [] } s' hs

theorem stepCities_pi {pd : Option JValue} {s s' : EntityModel}
    (hs : stepCities pd s = .ok s') : s'.player_info = s.player_info := by
  cases pd with
  | none => cases hs; rfl
  | some p =>
      simp only [stepCities] at hs
      by_cases ht : pyTruthy p = true
      · rw [if_pos ht] at hs
        cases hx : dictGet p "unlockedCities" (.arr []) with
        | ok uc =>
            rw [hx, withSt_ok, exc_bind_ok] at hs
            cases hy : toIter uc with
            | ok l =>
                rw [hy, withSt_ok, exc_bind_ok] at hs
                exact foldlM_preserve cityStep (fun t => t.player_info)
                  (fun a x a' hh => cityStep_pi hh) l { s with cities := [] } s' hs
            | error e =>
                rw [hy] at hs
                simp [withSt, Except.mapError, exc_bind_error] at hs
        | error e =>
            rw [hx] at hs
            simp [withSt, Except.mapError, exc_bind_error] at hs
      · rw [if_neg ht] at hs
        cases hs
        rfl

theorem stepMembers_pi {am : Option JValue} {s s' : EntityModel}
    (hs : stepMembers am s = .ok s') : s'.player_info = s.player_info := by
  cases am with
  | none => cases hs; rfl
  | some a =>
      simp only [stepMembers] at hs
      by_cases ht : pyTruthy a = true
      · rw [if_pos ht] at hs
        cases hx : dictGet a "members" (.arr []) with
        | ok ml =>
            rw [hx, withSt_ok, exc_bind_ok] at hs
            cases hy : toIter ml with
            | ok l =>
                rw [hy, withSt_ok, exc_bind_ok] at hs
                exact foldlM_preserve memberStep (fun t => t.player_info)
                  (fun a2 x a2' hh => memberStep_pi hh) l
                  { s with alliance_members := [] } s' hs
            | error e =>
                rw [hy] at hs
                simp [withSt, Except.mapError, exc_bind_error] at hs
        | error e =>
            rw [hx] at hs
            simp [withSt, Except.mapError, exc_bind_error] at hs
      · rw [if_neg ht] at hs
        cases hs
        rfl

theorem stepACities_pi {acs : List JValue} {s s' : EntityModel}
    (hs : stepACities acs s = .ok s') : s'.player_info = s.player_info := by
  simp only [stepACities] at hs
  exact foldlM_preserve acStep (fun t => t.player_info)
    (fun a x a' hh => acStep_pi hh) acs { s with alliance_cities := [] } s' hs

/-- On any successful build, the model's player-profile field is
step 1's projection of the player bucket: no later step touches it. -/
theorem build_ok_player_info {b : Buckets} {s m : EntityModel}
    (hs : build_master_tables b s = .ok m) :
    m.player_info = playerInfoPure b.raw_playerdto := by
  unfold build_master_tables at hs
  cases h1 : stepPlayer b.raw_playerdto s with
  | error e => rw [h1, exc_bind_error] at hs; exact absurd hs (by simp)
  | ok s1 =>
      rw [h1, exc_bind_ok] at hs
      cases hhp : hpTruthy b.raw_heropush with
      | false =>
          rw [hhp] at hs
          simp only [Bool.not_false, if_true] at hs
          exact absurd hs (by simp [throw, throwThe, MonadExceptOf.throw, exc_bind_error])
      | true =>
          rw [hhp] at hs
          simp only [Bool.not_true, Bool.false_eq_true, if_false, exc_pure_eq_ok,
            exc_bind_ok] at hs
          cases h2 : stepHeroes (b.raw_heropush.getD .null) s1 with
          | error e => rw [h2, exc_bind_error] at hs; exact absurd hs (by simp)
          | ok s2 =>
              rw [h2, exc_bind_ok] at hs
              cases h3 : mkSet (s2.heroes.map (fun h => h.heroDefinitionId)) with
              | error e =>
                  rw [h3] at hs
                  simp [withSt, Except.mapError, exc_bind_error] at hs
              | ok hset =>
                  rw [h3, withSt_ok, exc_bind_ok] at hs
                  cases h4 : stepDecks (b.raw_heropush.getD .null) s2 with
                  | error e => rw [h4, exc_bind_error] at hs; exact absurd hs (by simp)
                  | ok s3 =>
                      rw [h4, exc_bind_ok] at hs
                      cases h5 : stepEquip hset b.raw_equipment_lists s3 with
                      | error e => rw [h5, exc_bind_error] at hs; exact absurd hs (by simp)
                      | ok s4 =>
                          rw [h5, exc_bind_ok] at hs
                          cases h6 : stepRelics hset b.raw_relic_lists s4 with
                          | error e => rw [h6, exc_bind_error] at hs; exact absurd hs (by simp)
                          | ok s5 =>
                              rw [h6, exc_bind_ok] at hs
                              cases h7 : stepCities b.raw_playerdto s5 with
                              | error e => rw [h7, exc_bind_error] at hs; exact absurd hs (by simp)
                              | ok s6 =>
                                  rw [h7, exc_bind_ok] at hs
                                  cases h8 : stepMembers b.raw_alliance_members s6 with
                                  | error e =>
                                      rw [h8, exc_bind_error] at hs
                                      exact absurd hs (by simp)
                                  | ok s7 =>
                                      rw [h8, exc_bind_ok] at hs
                                      cases h9 : stepACities b.raw_alliance_cities s7 with
                                      | error e =>
                                          rw [h9, exc_bind_error] at hs
                                          exact absurd hs (by simp)
                                      | ok s8 =>
                                          rw [h9, exc_bind_ok] at hs
                                          cases hs
                                          rw [stepACities_pi h9, stepMembers_pi h8,
                                            stepCities_pi h7, stepRelics_pi h6,
                                            stepEquip_pi h5, stepDecks_pi h4,
                                            stepHeroes_pi h2, stepPlayer_pi h1]

theorem stepPlayer_frame {pd : Option JValue} {s s' : EntityModel}
    (hs : stepPlayer pd s = .ok s') :
    s'.heroes = s.heroes ∧ s'.decks = s.decks ∧ s'.equipment = s.equipment ∧
    s'.relics = s.relics ∧ s'.cities = s.cities ∧
    s'.alliance_members = s.alliance_members ∧ s'.alliance_cities = s.alliance_cities := by
  cases pd with
  | none => cases hs; exact ⟨rfl, rfl, rfl, rfl, rfl, rfl, rfl⟩
  | some p =>
      simp only [stepPlayer] at hs
      by_cases ht : pyTruthy p = true
      · rw [if_pos ht] at hs
        cases p with
        | obj fields => cases hs; exact ⟨rfl, rfl, rfl, rfl, rfl, rfl, rfl⟩
        | null => exact absurd hs (by simp)
        | bool bb => exact absurd hs (by simp)
        | num n => exact absurd hs (by simp)
        | str s2 => exact absurd hs (by simp)
        | arr l => exact absurd hs (by simp)
      · rw [if_neg ht] at hs
        cases hs
        exact ⟨rfl, rfl, rfl, rfl, rfl, rfl, rfl⟩

theorem stepPlayer_error {pd : Option JValue} {s : EntityModel} {es : String × EntityModel}
    (hs : stepPlayer pd s = .error es) : es.2 = s ∧ wtPlayer pd = false := by
  cases pd with
  | none => exact absurd hs (by simp [stepPlayer])
  | some p =>
      simp only [stepPlayer] at hs
      by_cases ht : pyTruthy p = true
      · rw [if_pos ht] at hs
        cases p with
        | obj fields => exact absurd hs (by simp)
        | null => simp [pyTruthy] at ht
        | bool bb =>
            cases hs
            exact ⟨rfl, by simp [wtPlayer, ht, isObjB]⟩
        | num n =>
            cases hs
            exact ⟨rfl, by simp [wtPlayer, ht, isObjB]⟩
        | str s2 =>
            cases hs
            exact ⟨rfl, by simp [wtPlayer, ht, isObjB]⟩
        | arr l =>
            cases hs
            exact ⟨rfl, by simp [wtPlayer, ht, isObjB]⟩
      · rw [if_neg ht] at hs
        exact absurd hs (by simp)

/-! ## Concrete sample records for witnesses and counterexamples -/

def msgPlayerA : JValue := .obj [("@type", .str "w.PlayerDTO"), ("id", .str "A")]

def msgPlayerB : JValue := .obj [("@type", .str "w.PlayerDTO"), ("id", .str "B"),
  ("displayName", .str "Bee"), ("username", .str "bee"), ("allianceId", .str "al1"),
  ("unlockedCities", .arr [.obj [("id", .str "city1"), ("definitionId", .str "cd1")]])]

def msgPlayerNoCities : JValue := .obj [("@type", .str "w.PlayerDTO"), ("id", .str "C"),
  ("unlockedCities", .arr [])]

def msgHeroPush1 : JValue := .obj [("@type", .str "w.HeroPush"),
  ("unlocked", .arr [.obj [("heroDefinitionId", .str "hero.boudica"), ("level", .num 5)],
                     .obj [("heroDefinitionId", .str "hero.arminius"), ("level", .num 2)]]),
  ("deck", .arr [.obj [("definitionId", .str "deck1"),
                       ("heroDefinitionId", .arr [.str "hero.caesar", .str "hero.boudica"])]])]

def msgHeroPushDup : JValue := .obj [("@type", .str "w.HeroPush"),
  ("unlocked", .arr [.obj [("heroDefinitionId", .str "hero.a")],
                     .obj [("heroDefinitionId", .str "hero.a")]])]

def msgHeroPushNoId : JValue := .obj [("@type", .str "w.HeroPush"),
  ("unlocked", .arr [.obj [("level", .num 1)]])]

def msgEquip1 : JValue := .obj [("@type", .str "w.AllEquipmentUnitDataDTO"),
  ("allEquipment", .arr [
     .obj [("equippedOnHeroDefinitionId", .str "hero.boudica"), ("id", .str "e1"),
           ("level", .num 3)],
     .obj [("equippedOnHeroDefinitionId", .str "hero.caesar"), ("id", .str "e2")]])]

def msgEquipNoKey : JValue := .obj [("@type", .str "w.AllEquipmentUnitDataDTO")]

def entryNoRef : JValue := .obj [("id", .str "e3")]

def msgRelicOwned : JValue := .obj [("@type", .str "w.RelicUnitDataDTO"),
  ("relicDefinitionId", .str "r1"), ("level", .num 2), ("ageDefinitionId", .str "age1"),
  ("supportingUnit", .obj [("definitionId", .str "hero.boudica")])]

def msgRelicUnowned : JValue := .obj [("@type", .str "w.RelicUnitDataDTO"),
  ("relicDefinitionId", .str "r2"), ("supportingUnit", .obj [("definitionId", .str "hero.nero")])]

def msgCity1 : JValue := .obj [("@type", .str "w.CityDTO"), ("id", .str "cty9")]

def msgAllianceCity1 : JValue := .obj [("@type", .str "w.AllianceCityDTO"), ("id", .str "ac1"),
  ("playerId", .str "B"), ("definitionId", .str "acd1")]

def msgTypeNull : JValue := .obj [("@type", JValue.null)]

/-! ## The claims -/

/-- C1: the claim says every record whose discriminator suffix is
`AllianceCityDTO` is routed to the AllianceCityRecords bucket and yields
one AllianceCity model entry.  The code cannot do this: the dispatch
tests `CityDTO` before `AllianceCityDTO`, and every discriminator ending
in `AllianceCityDTO` also ends in `CityDTO`, so such records are routed
to the city bucket, the alliance-city branch is unreachable, and the
alliance-cities bucket — hence the model's allianceCities collection —
is always empty.  The code's own comments and its dedicated (dead)
branch show the claim describes the intent; this is a code bug.  The
theorem proves the alliance-city bucket is empty after every successful
classification, and evaluates classifier and builder on a stream with an
alliance-city record: it lands in `raw_cities`, and the built model has
no alliance cities (nor cities, since no Player record is present). -/
theorem allianceCity_records_shadowed_by_city_rule :
    (∀ (ms : List JValue) (bk : Buckets),
      classify_startup_messages ms = .ok bk → bk.raw_alliance_cities = []) ∧
    (∃ bk m, classify_startup_messages [msgAllianceCity1, msgHeroPush1] = .ok bk ∧
      kindIs msgAllianceCity1 "AllianceCityDTO" = true ∧
      bk.raw_cities = [msgAllianceCity1] ∧ bk.raw_alliance_cities = [] ∧
      build_master_tables bk EntityModel.init = .ok m ∧
      m.alliance_cities = [] ∧ m.cities = []) := by
  constructor
  · intro ms bk h
    obtain ⟨-, rfl⟩ := (classify_ok_iff ms bk).mp h
    unfold classifyPure
    rw [foldPure_ac]
    rfl
  · exact ⟨classifyPure [msgAllianceCity1, msgHeroPush1],
      modelPure (classifyPure [msgAllianceCity1, msgHeroPush1]),
      by rfl, by rfl, by rfl, by rfl, by rfl, by rfl, by rfl⟩

theorem allianceCity_records_shadowed_by_city_rule_witness :
    (classifyPure [msgAllianceCity1]).raw_alliance_cities = [] :=
  allianceCity_records_shadowed_by_city_rule.1 [msgAllianceCity1]
    (classifyPure [msgAllianceCity1]) (by rfl)

/-- C2 (counterexample): the claim says that when `build_master_tables`
raises, no model field has been touched.  On buckets holding a Player
record but no HeroPush, the build raises the missing-HeroPush error —
yet the player-profile field has already been overwritten by step 1,
which runs before the HeroPush check. -/
theorem build_abort_mutates_profile_cex :
    ∃ s', build_master_tables ⟨some msgPlayerA, none, [], [], [], none, []⟩
        EntityModel.init = .error (hpErrMsg, s') ∧
      s'.player_info ≠ EntityModel.init.player_info ∧
      s'.player_info.id = .str "A" := by
  refine ⟨{ EntityModel.init with
    player_info := ⟨.str "A", .null, .null, .null⟩ }, by rfl, ?_, by rfl⟩
  simp [EntityModel.init]

/-- C2 (amended): `build_master_tables` raises whenever the HeroPush
bucket is absent or falsy, and on well-typed buckets with a truthy
HeroPush it returns a complete model without raising.  But the abort is
not clean: at the missing-HeroPush raise, the heroes, decks, equipment,
relics, cities, alliance-members and alliance-cities fields are still
unchanged from before the call, while the player-profile field has
already been overwritten with step 1's projection (when step 1 itself
did not raise first) — so the caller can observe a partially populated
model. -/
theorem build_abort_missing_heropush :
    (∀ (b : Buckets) (s : EntityModel), hpTruthy b.raw_heropush = false →
      ∃ e s', build_master_tables b s = .error (e, s') ∧
        s'.heroes = s.heroes ∧ s'.decks = s.decks ∧ s'.equipment = s.equipment ∧
        s'.relics = s.relics ∧ s'.cities = s.cities ∧
        s'.alliance_members = s.alliance_members ∧ s'.alliance_cities = s.alliance_cities ∧
        (wtPlayer b.raw_playerdto = true →
          e = hpErrMsg ∧ s'.player_info = playerInfoPure b.raw_playerdto)) ∧
    (∀ (b : Buckets) (s : EntityModel), wtBuckets b = true →
      hpTruthy b.raw_heropush = true → build_master_tables b s = .ok (modelPure b)) := by
  constructor
  · intro b s hhp
    unfold build_master_tables
    cases h1 : stepPlayer b.raw_playerdto s with
    | ok s1 =>
        obtain ⟨f1, f2, f3, f4, f5, f6, f7⟩ := stepPlayer_frame h1
        refine ⟨hpErrMsg, s1, ?_, f1, f2, f3, f4, f5, f6, f7, ?_⟩
        · rw [exc_bind_ok, hhp]
          rfl
        · intro _
          exact ⟨rfl, stepPlayer_pi h1⟩
    | error es =>
        obtain ⟨hst, hwt⟩ := stepPlayer_error h1
        refine ⟨es.1, es.2, ?_, by rw [hst], by rw [hst], by rw [hst], by rw [hst],
          by rw [hst], by rw [hst], by rw [hst], ?_⟩
        · rw [exc_bind_error]
        · intro hw
          rw [hw] at hwt
          exact absurd hwt (by simp)
  · exact fun b s hw hhp => build_ok_of_wt b hw hhp s

theorem build_abort_missing_heropush_witness :
    ∃ e s', build_master_tables ⟨some msgPlayerA, none, [], [], [], none, []⟩
        EntityModel.init = .error (e, s') ∧
      s'.heroes = EntityModel.init.heroes ∧ s'.decks = EntityModel.init.decks ∧
      s'.equipment = EntityModel.init.equipment ∧ s'.relics = EntityModel.init.relics ∧
      s'.cities = EntityModel.init.cities ∧
      s'.alliance_members = EntityModel.init.alliance_members ∧
      s'.alliance_cities = EntityModel.init.alliance_cities ∧
      (wtPlayer (some msgPlayerA) = true →
        e = hpErrMsg ∧
        s'.player_info = playerInfoPure (some msgPlayerA)) :=
  build_abort_missing_heropush.1 ⟨some msgPlayerA, none, [], [], [], none, []⟩
    EntityModel.init (by rfl)

/-- C3 (counterexample): the claim's "iff" fails when the owned-hero
set contains a null identifier (an `unlocked` element without
`heroDefinitionId`): an equipment entry whose equipped-on identifier is
(null, hence) a member of that owned set is still dropped, because the
guard `hero_def and hero_def in hero_set` requires a truthy identifier
before the membership test. -/
theorem equipment_join_null_member_cex :
    ∃ m, build_master_tables ⟨none, some msgHeroPushNoId, [.arr [entryNoRef]], [], [], none, []⟩
        EntityModel.init = .ok m ∧
      heroSetPure msgHeroPushNoId = [JValue.null] ∧
      equipRef entryNoRef = JValue.null ∧
      jmemB (equipRef entryNoRef) (heroSetPure msgHeroPushNoId) = true ∧
      m.equipment = [] :=
  ⟨modelPure ⟨none, some msgHeroPushNoId, [.arr [entryNoRef]], [], [], none, []⟩,
    by rfl, by rfl, by rfl, by rfl, by rfl⟩

/-- C3 (amended): on well-typed buckets with a truthy HeroPush, the
build succeeds, and an equipment entry (from the flattened
EquipmentLists) or a relic record is kept iff its referenced hero
identifier is truthy (non-null and non-empty) AND a member (Python `in`)
of the owned-hero-identifier set computed from HeroPush's unlocked list;
each hero-display-name group holds exactly the projections of its kept
entries, in order, keyed by the stripped identifier. -/
theorem equipment_relic_join_truthy_membership :
    ∀ (b : Buckets) (s : EntityModel), wtBuckets b = true →
      hpTruthy b.raw_heropush = true →
      build_master_tables b s = .ok (modelPure b) ∧
      (∀ hn : String,
        groupD (modelPure b).equipment hn =
          ((flatEntries b.raw_equipment_lists).filter (fun e =>
            (pyTruthy (equipRef e) && jmemB (equipRef e)
              (heroSetPure (b.raw_heropush.getD .null))) &&
            (stripName (equipRef e) == hn))).map equipProj) ∧
      (∀ hn : String,
        groupD (modelPure b).relics hn =
          (b.raw_relic_lists.filter (fun r =>
            (pyTruthy (relicRef r) && jmemB (relicRef r)
              (heroSetPure (b.raw_heropush.getD .null))) &&
            (stripName (relicRef r) == hn))).map relicProj) := by
  intro b s hw hhp
  refine ⟨build_ok_of_wt b hw hhp s, ?_, ?_⟩
  · intro hn
    have he : (modelPure b).equipment =
        equipPure (heroSetPure (b.raw_heropush.getD .null)) b.raw_equipment_lists := rfl
    rw [he, equipPure_groupD]
    rfl
  · intro hn
    have hr : (modelPure b).relics =
        relicsPure (heroSetPure (b.raw_heropush.getD .null)) b.raw_relic_lists := rfl
    rw [hr, relicsPure_groupD]
    rfl

theorem equipment_relic_join_truthy_membership_witness :
    groupD (modelPure (classifyPure
        [msgHeroPush1, msgEquip1, msgRelicOwned, msgRelicUnowned])).equipment "boudica" =
      ((flatEntries (classifyPure
        [msgHeroPush1, msgEquip1, msgRelicOwned, msgRelicUnowned]).raw_equipment_lists).filter
          (fun e =>
            (pyTruthy (equipRef e) && jmemB (equipRef e)
              (heroSetPure ((classifyPure
                [msgHeroPush1, msgEquip1, msgRelicOwned, msgRelicUnowned]).raw_heropush.getD
                  .null))) &&
            (stripName (equipRef e) == "boudica"))).map equipProj :=
  (equipment_relic_join_truthy_membership
    (classifyPure [msgHeroPush1, msgEquip1, msgRelicOwned, msgRelicUnowned])
    EntityModel.init (by rfl) (by rfl)).2.1 "boudica"

example :
    groupD (modelPure (classifyPure
        [msgHeroPush1, msgEquip1, msgRelicOwned, msgRelicUnowned])).equipment "boudica" =
      [⟨.str "e1", .null, .null, .null, .num 3, .null, .arr []⟩] := by rfl

example :
    groupD (modelPure (classifyPure
        [msgHeroPush1, msgEquip1, msgRelicOwned, msgRelicUnowned])).equipment "caesar" = [] := by
  rfl

example :
    groupD (modelPure (classifyPure
        [msgHeroPush1, msgEquip1, msgRelicOwned, msgRelicUnowned])).relics "boudica" =
      [⟨.str "r1", .num 2, .str "age1"⟩] := by rfl

example :
    groupD (modelPure (classifyPure
        [msgHeroPush1, msgEquip1, msgRelicOwned, msgRelicUnowned])).relics "nero" = [] := by rfl

/-- C4: the built cities collection is derived exclusively from the
Player singleton's nested `unlockedCities` list.  The builder never
reads the classified `CityDTO` bucket (replacing it changes nothing),
and when the player singleton is absent or its list is empty, the built
cities collection is empty — however many records `raw_cities` holds. -/
theorem cities_from_player_singleton_only :
    ∀ (b : Buckets) (s : EntityModel) (cs' : List JValue), wtBuckets b = true →
      hpTruthy b.raw_heropush = true →
      build_master_tables b s = .ok (modelPure b) ∧
      (modelPure b).cities = citiesPure b.raw_playerdto ∧
      build_master_tables { b with raw_cities := cs' } s = build_master_tables b s ∧
      ((b.raw_playerdto = none ∨
        ∃ p, b.raw_playerdto = some p ∧ jgetD p "unlockedCities" (.arr []) = .arr []) →
        (modelPure b).cities = []) := by
  intro b s cs' hw hhp
  refine ⟨build_ok_of_wt b hw hhp s, rfl, ?_, ?_⟩
  · cases b
    rfl
  · have hc : (modelPure b).cities = citiesPure b.raw_playerdto := rfl
    rintro (hnone | ⟨p, hp, hu⟩)
    · rw [hc, hnone]
      rfl
    · rw [hc, hp]
      unfold citiesPure
      by_cases ht : pyTruthy p = true <;> simp [ht, hu, jarrTot]

theorem cities_from_player_singleton_only_witness :
    (modelPure (classifyPure [msgPlayerNoCities, msgHeroPush1, msgCity1])).cities = [] :=
  (cities_from_player_singleton_only
    (classifyPure [msgPlayerNoCities, msgHeroPush1, msgCity1]) EntityModel.init [] (by rfl)
    (by rfl)).2.2.2 (Or.inr ⟨msgPlayerNoCities, by rfl, by rfl⟩)

example : (classifyPure [msgPlayerNoCities, msgHeroPush1, msgCity1]).raw_cities =
    [msgCity1] := by rfl

/-- The raw hero identifiers of HeroPush's unlocked list, in order. -/
def unlockedIds (b : Buckets) : List JValue :=
  (jarrTot (jgetD (b.raw_heropush.getD .null) "unlocked" (.arr []))).map
    (fun h => jgetN h "heroDefinitionId")

/-- C5 (counterexample): the claim says hero identifiers are unique in
the model.  The builder performs no deduplication: an unlocked list with
the same identifier twice yields two hero entries with that
identifier. -/
theorem hero_ids_duplicated_cex :
    ∃ m, build_master_tables ⟨none, some msgHeroPushDup, [], [], [], none, []⟩
        EntityModel.init = .ok m ∧
      m.heroes.map (fun h => h.heroDefinitionId) = [.str "hero.a", .str "hero.a"] ∧
      ¬ (m.heroes.map (fun h => h.heroDefinitionId)).Nodup := by
  refine ⟨modelPure ⟨none, some msgHeroPushDup, [], [], [], none, []⟩, by rfl, by rfl, ?_⟩
  show ¬ ([JValue.str "hero.a", JValue.str "hero.a"] : List JValue).Nodup
  simp

/-- C5 (amended): the builder emits exactly one hero entry per element
of HeroPush's unlocked list, with no deduplication — the model's hero
identifier list equals the unlocked elements' identifier list in order,
so hero identifiers are unique in the model exactly when the unlocked
list's identifiers are. -/
theorem hero_entries_one_per_unlocked :
    ∀ (b : Buckets) (s : EntityModel), wtBuckets b = true →
      hpTruthy b.raw_heropush = true →
      build_master_tables b s = .ok (modelPure b) ∧
      (modelPure b).heroes.map (fun h => h.heroDefinitionId) = unlockedIds b ∧
      ((unlockedIds b).Nodup →
        ((modelPure b).heroes.map (fun h => h.heroDefinitionId)).Nodup) := by
  intro b s hw hhp
  have hm : (modelPure b).heroes.map (fun h => h.heroDefinitionId) = unlockedIds b := by
    have h0 : (modelPure b).heroes = heroesPure (b.raw_heropush.getD .null) := rfl
    rw [h0]
    unfold heroesPure unlockedIds
    rw [List.map_map]
    rfl
  exact ⟨build_ok_of_wt b hw hhp s, hm, fun hnd => hm ▸ hnd⟩

theorem hero_entries_one_per_unlocked_witness :
    ((modelPure (classifyPure [msgHeroPush1])).heroes.map
      (fun h => h.heroDefinitionId)).Nodup :=
  (hero_entries_one_per_unlocked (classifyPure [msgHeroPush1]) EntityModel.init
    (by rfl) (by rfl)).2.2
    (by
      show ([JValue.str "hero.boudica", JValue.str "hero.arminius"] : List JValue).Nodup
      simp)

/-- C6 (counterexample): the claim says the EquipmentLists bucket gains
exactly one inner list per record whose discriminator suffix is
`AllEquipmentUnitDataDTO`.  A record with that suffix but without the
`allEquipment` key contributes nothing: the classifier guards the
append with `if "allEquipment" in msg`. -/
theorem equipment_bucket_missing_key_cex :
    ∃ bk, classify_startup_messages [msgEquipNoKey] = .ok bk ∧
      kindIs msgEquipNoKey "AllEquipmentUnitDataDTO" = true ∧
      bk.raw_equipment_lists = [] ∧
      ([msgEquipNoKey].filter (fun m => kindIs m "AllEquipmentUnitDataDTO")).length = 1 :=
  ⟨classifyPure [msgEquipNoKey], by rfl, by rfl, by rfl, by rfl⟩

/-- C6 (amended): after classification, the EquipmentLists bucket
contains, in stream order, exactly one stored value per
`AllEquipmentUnitDataDTO`-suffixed record that carries the
`allEquipment` key — the key's value appended verbatim; suffix-matching
records lacking the key contribute nothing. -/
theorem equipment_bucket_one_list_per_keyed_record :
    ∀ (ms : List JValue) (bk : Buckets), classify_startup_messages ms = .ok bk →
      bk.raw_equipment_lists =
        (ms.filter (fun m =>
          kindIs m "AllEquipmentUnitDataDTO" && hasKeyB m "allEquipment")).map
          (fun m => jgetN m "allEquipment") := by
  intro ms bk h
  obtain ⟨-, rfl⟩ := (classify_ok_iff ms bk).mp h
  unfold classifyPure
  rw [foldPure_eq]
  rfl

theorem equipment_bucket_one_list_per_keyed_record_witness :
    (classifyPure [msgEquip1, msgEquipNoKey]).raw_equipment_lists =
      ([msgEquip1, msgEquipNoKey].filter (fun m =>
        kindIs m "AllEquipmentUnitDataDTO" && hasKeyB m "allEquipment")).map
        (fun m => jgetN m "allEquipment") :=
  equipment_bucket_one_list_per_keyed_record [msgEquip1, msgEquipNoKey]
    (classifyPure [msgEquip1, msgEquipNoKey]) (by rfl)

example : (classifyPure [msgEquip1, msgEquipNoKey]).raw_equipment_lists =
    [jgetN msgEquip1 "allEquipment"] := by rfl

/-- C7: singleton buckets use last-write-wins.  After any successful
classification, the Player, HeroPush and AllianceMembers buckets hold
exactly the last record of their kind in stream order (none when the
stream has none); and on any successful build, the model's profile is
exactly the projection of that last Player record's four fields. -/
theorem singleton_last_write_wins :
    ∀ (ms : List JValue) (bk : Buckets), classify_startup_messages ms = .ok bk →
      bk.raw_playerdto = lastMatch "PlayerDTO" ms ∧
      bk.raw_heropush = lastMatch "HeroPush" ms ∧
      bk.raw_alliance_members = lastMatch "AllianceMembersResponse" ms ∧
      (∀ B, bk.raw_playerdto = some B →
        ∀ (s m : EntityModel), build_master_tables bk s = .ok m →
          m.player_info = ⟨jgetN B "id", jgetN B "displayName", jgetN B "username",
            jgetN B "allianceId"⟩) := by
  intro ms bk h
  obtain ⟨-, rfl⟩ := (classify_ok_iff ms bk).mp h
  have hpd : (classifyPure ms).raw_playerdto = lastMatch "PlayerDTO" ms := by
    unfold classifyPure
    rw [foldPure_pd]
    cases lastMatch "PlayerDTO" ms <;> rfl
  have hhp : (classifyPure ms).raw_heropush = lastMatch "HeroPush" ms := by
    unfold classifyPure
    rw [foldPure_hp]
    cases lastMatch "HeroPush" ms <;> rfl
  have ham : (classifyPure ms).raw_alliance_members =
      lastMatch "AllianceMembersResponse" ms := by
    unfold classifyPure
    rw [foldPure_am]
    cases lastMatch "AllianceMembersResponse" ms <;> rfl
  refine ⟨hpd, hhp, ham, ?_⟩
  intro B hB s m hbuild
  rw [build_ok_player_info hbuild, hB]
  have hkB : kindIs B "PlayerDTO" = true := by
    rw [hpd] at hB
    exact lastMatch_kindIs hB
  have htr := (kindIs_obj_truthy (by decide) hkB).2
  simp only [playerInfoPure, htr, if_true]

theorem singleton_last_write_wins_witness :
    (modelPure (classifyPure [msgPlayerA, msgHeroPush1, msgPlayerB])).player_info =
      ⟨jgetN msgPlayerB "id", jgetN msgPlayerB "displayName", jgetN msgPlayerB "username",
        jgetN msgPlayerB "allianceId"⟩ :=
  (singleton_last_write_wins [msgPlayerA, msgHeroPush1, msgPlayerB]
    (classifyPure [msgPlayerA, msgHeroPush1, msgPlayerB]) (by rfl)).2.2.2 msgPlayerB
    (by rfl) EntityModel.init
    (modelPure (classifyPure [msgPlayerA, msgHeroPush1, msgPlayerB])) (by rfl)

example : (classifyPure [msgPlayerA, msgHeroPush1, msgPlayerB]).raw_playerdto =
    some msgPlayerB := by rfl

example : (modelPure (classifyPure [msgPlayerA, msgHeroPush1, msgPlayerB])).player_info.id =
    .str "B" := by rfl

/-- The raw deck elements of HeroPush's deck list. -/
def rawDeckList (b : Buckets) : List JValue :=
  jarrTot (jgetD (b.raw_heropush.getD .null) "deck" (.arr []))

def deckObj1 : JValue := .obj [("definitionId", .str "deck1"),
  ("heroDefinitionId", .arr [.str "hero.caesar", .str "hero.boudica"])]

/-- C8: deck passthrough.  On well-typed buckets with a truthy
HeroPush, the build succeeds and produces exactly one deck per element
of HeroPush's deck list, whose hero list is the element's referenced
identifier list with every occurrence of the `hero.` namespace pattern
removed (Python `replace`, which equals prefix-stripping on namespaced
identifiers), in order and with no membership check: an identifier that
is not in the owned-hero set still appears in the built deck. -/
theorem deck_passthrough_no_filter :
    ∀ (b : Buckets) (s : EntityModel), wtBuckets b = true →
      hpTruthy b.raw_heropush = true →
      build_master_tables b s = .ok (modelPure b) ∧
      (modelPure b).decks = (rawDeckList b).map (fun d =>
        ⟨jgetN d "definitionId",
         (jarrTot (jgetD d "heroDefinitionId" (.arr []))).map stripDeckHero⟩) ∧
      (∀ d ∈ rawDeckList b, deckPure d ∈ (modelPure b).decks ∧
        ∀ hid ∈ jarrTot (jgetD d "heroDefinitionId" (.arr [])),
          jmemB hid (heroSetPure (b.raw_heropush.getD .null)) = false →
          stripDeckHero hid ∈ (deckPure d).heroes) := by
  intro b s hw hhp
  have hd : (modelPure b).decks = (rawDeckList b).map deckPure := rfl
  refine ⟨build_ok_of_wt b hw hhp s, hd, ?_⟩
  intro d hdm
  constructor
  · rw [hd]
    exact List.mem_map_of_mem deckPure hdm
  · intro hid hhid _
    exact List.mem_map_of_mem stripDeckHero hhid

theorem deck_passthrough_no_filter_witness :
    JValue.str "caesar" ∈ (deckPure deckObj1).heroes :=
  ((deck_passthrough_no_filter (classifyPure [msgHeroPush1]) EntityModel.init
      (by rfl) (by rfl)).2.2 deckObj1
    (List.mem_singleton.mpr rfl)).2 (.str "hero.caesar")
    (List.mem_cons_self _ _) (by rfl)

example : jmemB (.str "hero.caesar")
    (heroSetPure ((classifyPure [msgHeroPush1]).raw_heropush.getD .null)) = false := by rfl

example : (modelPure (classifyPure [msgHeroPush1])).decks =
    [⟨.str "deck1", [.str "caesar", .str "boudica"]⟩] := by rfl

/-- C9 (counterexample): the claim says classification never raises.
A record whose discriminator field is present but null raises: Python's
`msg.get("@type", "")` returns the stored `None` (the default only
covers an absent key), and `None.endswith(...)` is an
`AttributeError`. -/
theorem classification_null_discriminator_raises_cex :
    classify_startup_messages [msgTypeNull] =
      .error "AttributeError: object has no attribute endswith" := by rfl

/-- C9 (amended): classification never raises provided every record is
a dict whose discriminator field, when present, holds a string (absent
fields default harmlessly; a present-but-null or otherwise ill-typed
field raises).  Each successfully classified record is routed by the
ordered first-match suffix dispatch to at most one bucket — every
bucket's content after one step is characterized below, unmatched
records change nothing, and the alliance-city bucket is never touched.
And the builder, on well-typed buckets with a truthy HeroPush, never
raises: every absent optional field resolves to a null/empty default. -/
theorem classification_routing_and_builder_totality :
    (∀ ms : List JValue, (∀ m ∈ ms, wfMsg m = true) →
      classify_startup_messages ms = .ok (classifyPure ms)) ∧
    (∀ (b : Buckets) (m : JValue) (b' : Buckets), classifyMsg b m = .ok b' →
      b'.raw_playerdto = (if kindIs m "PlayerDTO" then some m else b.raw_playerdto) ∧
      b'.raw_heropush = (if kindIs m "HeroPush" then some m else b.raw_heropush) ∧
      b'.raw_equipment_lists =
        (if kindIs m "AllEquipmentUnitDataDTO" && hasKeyB m "allEquipment" then
          b.raw_equipment_lists ++ [jgetN m "allEquipment"]
         else b.raw_equipment_lists) ∧
      b'.raw_relic_lists =
        (if kindIs m "RelicUnitDataDTO" then b.raw_relic_lists ++ [m]
         else b.raw_relic_lists) ∧
      b'.raw_cities = (if kindIs m "CityDTO" then b.raw_cities ++ [m] else b.raw_cities) ∧
      b'.raw_alliance_members =
        (if kindIs m "AllianceMembersResponse" then some m else b.raw_alliance_members) ∧
      b'.raw_alliance_cities = b.raw_alliance_cities) ∧
    (∀ (b : Buckets) (s : EntityModel), wtBuckets b = true →
      hpTruthy b.raw_heropush = true →
      ∃ mo, build_master_tables b s = .ok mo) := by
  refine ⟨?_, ?_, ?_⟩
  · exact fun ms hwf => (classify_ok_iff ms (classifyPure ms)).mpr ⟨hwf, rfl⟩
  · intro b m b' h
    obtain ⟨-, rfl⟩ := (classifyMsg_ok_iff b m b').mp h
    exact ⟨stepPure_pd b m, stepPure_hp b m, stepPure_eq b m, stepPure_relics b m,
      stepPure_cities b m, stepPure_am b m, stepPure_ac b m⟩
  · exact fun b s hw hhp => ⟨modelPure b, build_ok_of_wt b hw hhp s⟩

theorem classification_routing_and_builder_totality_witness :
    classify_startup_messages [msgPlayerA, msgHeroPush1] =
      .ok (classifyPure [msgPlayerA, msgHeroPush1]) ∧
    (∃ mo, build_master_tables (classifyPure [msgPlayerA, msgHeroPush1])
      EntityModel.init = .ok mo) :=
  ⟨classification_routing_and_builder_totality.1 [msgPlayerA, msgHeroPush1]
      (by intro m hm; fin_cases hm <;> rfl),
   classification_routing_and_builder_totality.2.2
      (classifyPure [msgPlayerA, msgHeroPush1]) EntityModel.init (by rfl) (by rfl)⟩

/-- C10: an equipment or relic entry whose referenced hero identifier
is absent or null is always excluded.  On well-typed buckets the build
succeeds, the total number of kept equipment (relic) items equals the
number of flattened entries (raw relic records) passing the join guard,
and the guard is false for every entry whose referenced identifier is
null — with no assumption on the owned set, which may itself contain a
null identifier (unlocked element without `heroDefinitionId`). -/
theorem null_ref_entries_always_excluded :
    ∀ (b : Buckets) (s : EntityModel), wtBuckets b = true →
      hpTruthy b.raw_heropush = true →
      build_master_tables b s = .ok (modelPure b) ∧
      groupCount (modelPure b).equipment =
        (flatEntries b.raw_equipment_lists).countP
          (equipKeep (heroSetPure (b.raw_heropush.getD .null))) ∧
      groupCount (modelPure b).relics =
        b.raw_relic_lists.countP (relicKeep (heroSetPure (b.raw_heropush.getD .null))) ∧
      (∀ e : JValue, equipRef e = JValue.null →
        equipKeep (heroSetPure (b.raw_heropush.getD .null)) e = false) ∧
      (∀ r : JValue, relicRef r = JValue.null →
        relicKeep (heroSetPure (b.raw_heropush.getD .null)) r = false) := by
  intro b s hw hhp
  have he : (modelPure b).equipment =
      equipPure (heroSetPure (b.raw_heropush.getD .null)) b.raw_equipment_lists := rfl
  have hr : (modelPure b).relics =
      relicsPure (heroSetPure (b.raw_heropush.getD .null)) b.raw_relic_lists := rfl
  refine ⟨build_ok_of_wt b hw hhp s, ?_, ?_, ?_, ?_⟩
  · rw [he, equipPure_count]
  · rw [hr, relicsPure_count]
  · intro e h
    simp [equipKeep, h, pyTruthy]
  · intro r h
    simp [relicKeep, h, pyTruthy]

theorem null_ref_entries_always_excluded_witness :
    groupCount (modelPure ⟨none, some msgHeroPushNoId, [.arr [entryNoRef]], [], [],
      none, []⟩).equipment =
      (flatEntries [.arr [entryNoRef]]).countP (equipKeep (heroSetPure msgHeroPushNoId)) :=
  (null_ref_entries_always_excluded
    ⟨none, some msgHeroPushNoId, [.arr [entryNoRef]], [], [], none, []⟩ EntityModel.init
    (by rfl) (by rfl)).2.1

example : JValue.null ∈ heroSetPure msgHeroPushNoId := by
  show JValue.null ∈ [JValue.null]
  simp

example : groupCount (modelPure ⟨none, some msgHeroPushNoId, [.arr [entryNoRef]], [], [],
    none, []⟩).equipment = 0 := by rfl
